import Mathlib

/-
Verification of the directive / container schema deserializer of the
maelstrom test runner (crates/maelstrom-test-runner/src/metadata/directive.rs
and the container builder it delegates to).

The input document is modelled as a logical tagged tree of values (the host
TOML parser produces such trees); a declaration is the ordered list of its
top-level key/value pairs.  Decoding is a left fold of `decodeField` over
that list, exactly mirroring `DirectiveVisitor::visit_map`.
-/

set_option maxHeartbeats 1000000

namespace Maelstrom

/-- Logical tagged-tree input value: the shape the host parser hands to the
deserializer (strings, integers, booleans, sequences, keyed records). -/
inductive Value where
  | str (s : String)
  | int (n : Nat)
  | bool (b : Bool)
  | seq (elems : List Value)
  | table (entries : List (String × Value))

/-- Network mode of a container (`JobNetwork` in maelstrom-base): closed set
{disabled, loopback, local}. -/
inductive JobNetwork where
  | Disabled
  | Loopback
  | Local
deriving DecidableEq

/-- Device names for a `devices` mount (`JobDeviceForTomlAndJson`): closed set
{null, zero, full, random, urandom, tty}. -/
inductive JobDeviceForTomlAndJson where
  | Null
  | Zero
  | Full
  | Random
  | Urandom
  | Tty
deriving DecidableEq

/-- Modelled from the spec: mount descriptors (`JobMountForTomlAndJson` of
maelstrom-base, not under src/): tagged union over proc/tmp/sys/bind/devices;
proc, tmp, sys and bind carry a non-root mount point; bind adds a local path
and a read-only flag defaulting to false. -/
inductive JobMountForTomlAndJson where
  | Proc (mount_point : String)
  | Tmp (mount_point : String)
  | Sys (mount_point : String)
  | Bind (mount_point : String) (local_path : String) (read_only : Bool)
  | Devices (devices : List JobDeviceForTomlAndJson)
deriving DecidableEq

/-- Modelled from the spec: prefix modifier options accepted by the glob,
paths and shared-library-dependencies layer variants (maelstrom-client's
`PrefixOptions`, not under src/). -/
structure PrefixOptions where
  strip_prefix : Option String
  prepend_prefix : Option String
  canonicalize : Bool
deriving DecidableEq

/-- Modelled from the spec: one symlink stub of a symlinks layer
(maelstrom-client's `SymlinkSpec`, not under src/). -/
structure SymlinkSpec where
  link : String
  target : String
deriving DecidableEq

/-- Modelled from the spec: layer descriptors (maelstrom-client's `LayerSpec`,
not under src/): tagged union over tar/glob/paths/stubs/symlinks/
shared-library-dependencies, the latter three of glob, paths and
shared-library-dependencies carrying prefix modifiers. -/
inductive LayerSpec where
  | Tar (path : String)
  | Glob (glob : String) (prefix_options : PrefixOptions)
  | Paths (paths : List String) (prefix_options : PrefixOptions)
  | Stubs (stubs : List String)
  | Symlinks (symlinks : List SymlinkSpec)
  | SharedLibraryDependencies (binary_paths : List String)
      (prefix_options : PrefixOptions)
deriving DecidableEq

/-- Modelled from the spec: the two-variant provenance tag (maelstrom-client's
`PossiblyImage<T>`, not under src/): the value is supplied later by the
referenced image, or given explicitly. -/
inductive PossiblyImage (α : Type) where
  | Image
  | Explicit (v : α)
deriving DecidableEq

/-- Modelled from the spec: the fields an image reference may supply
(maelstrom-client's `ImageUse`, not under src/): closed set
{layers, environment, working_directory}. -/
inductive ImageUse where
  | Layers
  | Environment
  | WorkingDirectory
deriving DecidableEq

/-- Modelled from the spec: the container spec record (`TestContainer` of
metadata/container.rs, not under src/), fields as listed in the spec's data
model: replace-fields optional, added-fields always present. The environment
maps are modelled as sorted association lists standing for `BTreeMap`. -/
structure TestContainer where
  network : Option JobNetwork
  enable_writable_file_system : Option Bool
  user : Option Nat
  group : Option Nat
  mounts : Option (List JobMountForTomlAndJson)
  added_mounts : List JobMountForTomlAndJson
  image : Option String
  working_directory : Option (PossiblyImage String)
  layers : Option (PossiblyImage (List LayerSpec))
  added_layers : List LayerSpec
  environment : Option (PossiblyImage (List (String × String)))
  added_environment : List (String × String)
deriving DecidableEq

/-- Default container: every optional field unset, every added-field empty
(the `Default` impl of `TestContainer`, corroborated by the directive tests). -/
def defaultContainer : TestContainer :=
  ⟨none, none, none, none, none, [], none, none, none, [], none, []⟩

/-- The directive record (`TestDirective` of directive.rs), instantiated at
the filter type used by the tests (`TestDirective<String>`, whose `FromStr`
parse is infallible). `timeout`'s outer option is presence, the inner option
distinguishes no-timeout from a positive number of seconds. -/
structure TestDirective where
  filter : Option String
  container : TestContainer
  include_shared_libraries : Option Bool
  timeout : Option (Option Nat)
  ignore : Option Bool
deriving DecidableEq

/-- Default directive: every field unset, nested container at its default
(the `Default` impl in directive.rs). -/
def defaultDirective : TestDirective :=
  ⟨none, defaultContainer, none, none, none⟩

/-- Modelled from the spec: `Timeout::new` of maelstrom-base (not under
src/): zero becomes no-timeout, a positive integer that many seconds. -/
def Timeout.new (n : Nat) : Option Nat :=
  if n = 0 then none else some n

/-- The directive-level field identifier enum of directive.rs
(`DirectiveField`, serde snake_case field_identifier). -/
inductive DirectiveField where
  | Filter
  | IncludeSharedLibraries
  | Timeout
  | Ignore
  | Network
  | EnableWritableFileSystem
  | User
  | Group
  | Mounts
  | AddedMounts
  | Image
  | WorkingDirectory
  | Layers
  | AddedLayers
  | Environment
  | AddedEnvironment
deriving DecidableEq

/-- Modelled from the spec: the container-level field identifier enum
(`ContainerField` of metadata/container.rs, not under src/). -/
inductive ContainerField where
  | Network
  | EnableWritableFileSystem
  | User
  | Group
  | Mounts
  | AddedMounts
  | Image
  | WorkingDirectory
  | Layers
  | AddedLayers
  | Environment
  | AddedEnvironment
deriving DecidableEq

/-- `DirectiveField::into_container_field` of directive.rs: directive-only
fields map to none, the rest to the container field of the same name. -/
def DirectiveField.into_container_field : DirectiveField → Option ContainerField
  | .Filter => none
  | .IncludeSharedLibraries => none
  | .Timeout => none
  | .Ignore => none
  | .Network => some .Network
  | .EnableWritableFileSystem => some .EnableWritableFileSystem
  | .User => some .User
  | .Group => some .Group
  | .Mounts => some .Mounts
  | .AddedMounts => some .AddedMounts
  | .Image => some .Image
  | .WorkingDirectory => some .WorkingDirectory
  | .Layers => some .Layers
  | .AddedLayers => some .AddedLayers
  | .Environment => some .Environment
  | .AddedEnvironment => some .AddedEnvironment

/-- The closed universe of top-level directive field names, in declaration
order of `DirectiveField` (serde snake_case renaming). -/
def directiveFieldNames : List String :=
  ["filter", "include_shared_libraries", "timeout", "ignore", "network",
   "enable_writable_file_system", "user", "group", "mounts", "added_mounts",
   "image", "working_directory", "layers", "added_layers", "environment",
   "added_environment"]

/-- The expected-fields list serde prints in an unknown-field error. -/
def expectedFieldList : String :=
  "`filter`, `include_shared_libraries`, `timeout`, `ignore`, `network`, `enable_writable_file_system`, `user`, `group`, `mounts`, `added_mounts`, `image`, `working_directory`, `layers`, `added_layers`, `environment`, `added_environment`"

/-- The unknown-field error message at the top level of a directive. -/
def unknownFieldMsg (k : String) : String :=
  "unknown field `" ++ k ++ "`, expected one of " ++ expectedFieldList

/-- The key-to-field association of the serde field_identifier. -/
def fieldKeyTable : List (String × DirectiveField) :=
  [("filter", .Filter), ("include_shared_libraries", .IncludeSharedLibraries),
   ("timeout", .Timeout), ("ignore", .Ignore), ("network", .Network),
   ("enable_writable_file_system", .EnableWritableFileSystem), ("user", .User),
   ("group", .Group), ("mounts", .Mounts), ("added_mounts", .AddedMounts),
   ("image", .Image), ("working_directory", .WorkingDirectory),
   ("layers", .Layers), ("added_layers", .AddedLayers),
   ("environment", .Environment), ("added_environment", .AddedEnvironment)]

/-- Look a key up in the field table. -/
def lookupField : List (String × DirectiveField) → String → Option DirectiveField
  | [], _ => none
  | (k', f) :: rest, k => if k = k' then some f else lookupField rest k

/-- Key-to-field decoding of the serde field_identifier of directive.rs:
a top-level key not in the closed universe is an unknown-field error. -/
def parseDirectiveField (k : String) : Except String DirectiveField :=
  match lookupField fieldKeyTable k with
  | some f => .ok f
  | none => .error (unknownFieldMsg k)

/-- Expect a string value. -/
def expectStr : Value → Except String String
  | .str s => .ok s
  | _ => .error "invalid type: expected a string"

/-- Expect a boolean value. -/
def expectBool : Value → Except String Bool
  | .bool b => .ok b
  | _ => .error "invalid type: expected a boolean"

/-- Expect a non-negative integer value. -/
def expectNat : Value → Except String Nat
  | .int n => .ok n
  | _ => .error "invalid type: expected an integer"

/-- Expect an unsigned 32-bit identifier (user / group ids). -/
def expectU32 : Value → Except String Nat
  | .int n => if n < 4294967296 then .ok n else .error "invalid value: integer out of range for u32"
  | _ => .error "invalid type: expected an integer"

/-- Expect a sequence value. -/
def expectSeq : Value → Except String (List Value)
  | .seq vs => .ok vs
  | _ => .error "invalid type: expected a sequence"

/-- Look a key up in a keyed record, first occurrence wins. -/
def findVal : List (String × Value) → String → Option Value
  | [], _ => none
  | (k, v) :: rest, key => if k = key then some v else findVal rest key

/-- First key of a keyed record that is not in the allowed list, if any. -/
def firstUnknownKey : List (String × Value) → List String → Option String
  | [], _ => none
  | (k, _) :: rest, allowed =>
      if k ∈ allowed then firstUnknownKey rest allowed else some k

/-- The diagnostic produced when a path value is the single-character root
(the `NonRootPathBuf` constructor failure). -/
def nonRootPathMsg : String := "a path of \"/\" not allowed"

/-- Modelled from the spec: the `NonRootPath` validating constructor (not
under src/): a path string whose textual form must not be `/`. -/
def decodeNonRootPath (v : Value) : Except String String :=
  match v with
  | .str p => if p = "/" then .error nonRootPathMsg else .ok p
  | _ => .error "invalid type: expected a path string"

/-- Modelled from the spec: network mode decoding, closed variant set. -/
def decodeNetwork (v : Value) : Except String JobNetwork :=
  match v with
  | .str s =>
      if s = "disabled" then .ok .Disabled
      else if s = "loopback" then .ok .Loopback
      else if s = "local" then .ok .Local
      else .error ("unknown variant `" ++ s ++ "`, expected one of `disabled`, `loopback`, `local`")
  | _ => .error "invalid type: expected a string"

/-- Modelled from the spec: device name decoding, closed variant set. -/
def decodeDevice (s : String) : Except String JobDeviceForTomlAndJson :=
  if s = "null" then .ok .Null
  else if s = "zero" then .ok .Zero
  else if s = "full" then .ok .Full
  else if s = "random" then .ok .Random
  else if s = "urandom" then .ok .Urandom
  else if s = "tty" then .ok .Tty
  else .error ("unknown variant `" ++ s ++ "`, expected one of `null`, `zero`, `full`, `random`, `urandom`, `tty`")

/-- Decode a sequence of device names. -/
def decodeDeviceList : List Value → Except String (List JobDeviceForTomlAndJson)
  | [] => .ok []
  | v :: rest =>
    match expectStr v with
    | .error e => .error e
    | .ok s =>
      match decodeDevice s with
      | .error e => .error e
      | .ok d =>
        match decodeDeviceList rest with
        | .error e => .error e
        | .ok ds => .ok (d :: ds)

/-- Unknown-field diagnostic inside a mount record. -/
def unknownMountFieldMsg (k : String) : String :=
  "unknown field `" ++ k ++ "`, expected mount fields"

/-- Modelled from the spec: decoding of a proc/tmp/sys mount record (only
`type` and `mount_point` keys; the mount point must be non-root). -/
def decodeSimpleMount (entries : List (String × Value))
    (mk : String → JobMountForTomlAndJson) : Except String JobMountForTomlAndJson :=
  match firstUnknownKey entries ["type", "mount_point"] with
  | some k => .error (unknownMountFieldMsg k)
  | none =>
    match findVal entries "mount_point" with
    | none => .error "missing field `mount_point`"
    | some mv => (decodeNonRootPath mv).map mk

/-- Modelled from the spec: decoding of a bind mount record (`type`,
`mount_point`, `local_path`, optional `read_only` defaulting to false). -/
def decodeBindMount (entries : List (String × Value)) : Except String JobMountForTomlAndJson :=
  match firstUnknownKey entries ["type", "mount_point", "local_path", "read_only"] with
  | some k => .error (unknownMountFieldMsg k)
  | none =>
    match findVal entries "mount_point" with
    | none => .error "missing field `mount_point`"
    | some mv =>
      match decodeNonRootPath mv with
      | .error e => .error e
      | .ok mp =>
        match findVal entries "local_path" with
        | none => .error "missing field `local_path`"
        | some lv =>
          match expectStr lv with
          | .error e => .error e
          | .ok lp =>
            match findVal entries "read_only" with
            | none => .ok (.Bind mp lp false)
            | some rv => (expectBool rv).map (.Bind mp lp ·)

/-- Modelled from the spec: decoding of a devices mount record (`type` and a
non-empty set of device names). -/
def decodeDevicesMount (entries : List (String × Value)) : Except String JobMountForTomlAndJson :=
  match firstUnknownKey entries ["type", "devices"] with
  | some k => .error (unknownMountFieldMsg k)
  | none =>
    match findVal entries "devices" with
    | none => .error "missing field `devices`"
    | some dv =>
      match expectSeq dv with
      | .error e => .error e
      | .ok vs =>
        match decodeDeviceList vs with
        | .error e => .error e
        | .ok [] => .error "invalid value: empty device set not allowed"
        | .ok ds => .ok (.Devices ds)

/-- Modelled from the spec: `decode_mount` — a keyed record dispatched on its
`type` discriminator, drawn from the closed set proc/tmp/sys/bind/devices. -/
def decodeMount (v : Value) : Except String JobMountForTomlAndJson :=
  match v with
  | .table entries =>
    match findVal entries "type" with
    | none => .error "missing field `type`"
    | some tv =>
      match tv with
      | .str t =>
        if t = "proc" then decodeSimpleMount entries .Proc
        else if t = "tmp" then decodeSimpleMount entries .Tmp
        else if t = "sys" then decodeSimpleMount entries .Sys
        else if t = "bind" then decodeBindMount entries
        else if t = "devices" then decodeDevicesMount entries
        else .error ("unknown variant `" ++ t ++ "`, expected one of `proc`, `tmp`, `sys`, `bind`, `devices`")
      | _ => .error "invalid type: expected a string mount type"
  | _ => .error "invalid type: expected a mount record"

/-- Decode a list of mount records. -/
def decodeMountList : List Value → Except String (List JobMountForTomlAndJson)
  | [] => .ok []
  | v :: rest =>
    match decodeMount v with
    | .error e => .error e
    | .ok m =>
      match decodeMountList rest with
      | .error e => .error e
      | .ok ms => .ok (m :: ms)

/-- Decode a mounts value: a sequence of mount records. -/
def decodeMounts (v : Value) : Except String (List JobMountForTomlAndJson) :=
  match expectSeq v with
  | .error e => .error e
  | .ok vs => decodeMountList vs

/-- Decode a sequence of strings. -/
def decodeStrList : List Value → Except String (List String)
  | [] => .ok []
  | v :: rest =>
    match expectStr v with
    | .error e => .error e
    | .ok s =>
      match decodeStrList rest with
      | .error e => .error e
      | .ok ss => .ok (s :: ss)

/-- The layer variant discriminator keys, hyphenated as in the input syntax. -/
def layerDiscriminators : List String :=
  ["tar", "glob", "paths", "stubs", "symlinks", "shared-library-dependencies"]

/-- The discriminator keys present in a layer record. -/
def presentDiscriminators (entries : List (String × Value)) : List String :=
  layerDiscriminators.filter (fun d => (findVal entries d).isSome)

/-- Modelled from the spec: decoding of the three optional prefix modifier
keys of a glob/paths/shared-library-dependencies layer. -/
def decodePrefixOptions (entries : List (String × Value)) : Except String PrefixOptions :=
  match
    (match findVal entries "strip_prefix" with
     | none => .ok none
     | some v => (expectStr v).map some : Except String (Option String)) with
  | .error e => .error e
  | .ok sp =>
    match
      (match findVal entries "prepend_prefix" with
       | none => .ok none
       | some v => (expectStr v).map some : Except String (Option String)) with
    | .error e => .error e
    | .ok pp =>
      match
        (match findVal entries "canonicalize" with
         | none => .ok false
         | some v => expectBool v : Except String Bool) with
      | .error e => .error e
      | .ok cz => .ok (PrefixOptions.mk sp pp cz)

/-- Decode a single symlink stub record with `link` and `target` keys. -/
def decodeSymlink (v : Value) : Except String SymlinkSpec :=
  match v with
  | .table entries =>
    match firstUnknownKey entries ["link", "target"] with
    | some k => .error ("unknown field `" ++ k ++ "`, expected `link` and `target`")
    | none =>
      match findVal entries "link" with
      | none => .error "missing field `link`"
      | some lv =>
        match expectStr lv with
        | .error e => .error e
        | .ok l =>
          match findVal entries "target" with
          | none => .error "missing field `target`"
          | some tv => (expectStr tv).map (SymlinkSpec.mk l)
  | _ => .error "invalid type: expected a symlink record"

/-- Decode a sequence of symlink stubs. -/
def decodeSymlinkList : List Value → Except String (List SymlinkSpec)
  | [] => .ok []
  | v :: rest =>
    match decodeSymlink v with
    | .error e => .error e
    | .ok s =>
      match decodeSymlinkList rest with
      | .error e => .error e
      | .ok ss => .ok (s :: ss)

/-- Modelled from the spec: `decode_layer` — a keyed record with exactly one
discriminator key among tar/glob/paths/stubs/symlinks/
shared-library-dependencies; the three modifier keys are legal only for the
variants that accept them. -/
def decodeLayer (v : Value) : Except String LayerSpec :=
  match v with
  | .table entries =>
    match presentDiscriminators entries with
    | [d] =>
      if d = "tar" then
        match firstUnknownKey entries ["tar"] with
        | some k => .error ("unknown field `" ++ k ++ "`, expected `tar`")
        | none =>
          match findVal entries "tar" with
          | none => .error "missing field `tar`"
          | some tv => (expectStr tv).map .Tar
      else if d = "glob" then
        match firstUnknownKey entries ["glob", "strip_prefix", "prepend_prefix", "canonicalize"] with
        | some k => .error ("unknown field `" ++ k ++ "`, expected glob layer fields")
        | none =>
          match findVal entries "glob" with
          | none => .error "missing field `glob`"
          | some gv =>
            match expectStr gv with
            | .error e => .error e
            | .ok g => (decodePrefixOptions entries).map (.Glob g)
      else if d = "paths" then
        match firstUnknownKey entries ["paths", "strip_prefix", "prepend_prefix", "canonicalize"] with
        | some k => .error ("unknown field `" ++ k ++ "`, expected paths layer fields")
        | none =>
          match findVal entries "paths" with
          | none => .error "missing field `paths`"
          | some pv =>
            match expectSeq pv with
            | .error e => .error e
            | .ok vs =>
              match decodeStrList vs with
              | .error e => .error e
              | .ok ps => (decodePrefixOptions entries).map (.Paths ps)
      else if d = "stubs" then
        match firstUnknownKey entries ["stubs"] with
        | some k => .error ("unknown field `" ++ k ++ "`, expected `stubs`")
        | none =>
          match findVal entries "stubs" with
          | none => .error "missing field `stubs`"
          | some sv =>
            match expectSeq sv with
            | .error e => .error e
            | .ok vs => (decodeStrList vs).map .Stubs
      else if d = "symlinks" then
        match firstUnknownKey entries ["symlinks"] with
        | some k => .error ("unknown field `" ++ k ++ "`, expected `symlinks`")
        | none =>
          match findVal entries "symlinks" with
          | none => .error "missing field `symlinks`"
          | some sv =>
            match expectSeq sv with
            | .error e => .error e
            | .ok vs => (decodeSymlinkList vs).map .Symlinks
      else
        match firstUnknownKey entries ["shared-library-dependencies", "strip_prefix", "prepend_prefix", "canonicalize"] with
        | some k => .error ("unknown field `" ++ k ++ "`, expected shared-library-dependencies layer fields")
        | none =>
          match findVal entries "shared-library-dependencies" with
          | none => .error "missing field `shared-library-dependencies`"
          | some pv =>
            match expectSeq pv with
            | .error e => .error e
            | .ok vs =>
              match decodeStrList vs with
              | .error e => .error e
              | .ok ps => (decodePrefixOptions entries).map (.SharedLibraryDependencies ps)
    | _ => .error "expected exactly one of `tar`, `glob`, `paths`, `stubs`, `symlinks`, `shared-library-dependencies`"
  | _ => .error "invalid type: expected a layer record"

/-- Decode a list of layer records. -/
def decodeLayerList : List Value → Except String (List LayerSpec)
  | [] => .ok []
  | v :: rest =>
    match decodeLayer v with
    | .error e => .error e
    | .ok l =>
      match decodeLayerList rest with
      | .error e => .error e
      | .ok ls => .ok (l :: ls)

/-- Decode a layers value: a sequence of layer records. -/
def decodeLayers (v : Value) : Except String (List LayerSpec) :=
  match expectSeq v with
  | .error e => .error e
  | .ok vs => decodeLayerList vs

/-- Sorted-insert into an association list standing for a `BTreeMap`:
replaces an existing binding of the key, otherwise inserts in key order. -/
def envInsert : List (String × String) → String → String → List (String × String)
  | [], k, v => [(k, v)]
  | (k', v') :: rest, k, v =>
      if k = k' then (k, v) :: rest
      else if k < k' then (k, v) :: (k', v') :: rest
      else (k', v') :: envInsert rest k v

/-- Decode the entries of an environment table, each value a string. -/
def decodeEnvEntries : List (String × Value) → Except String (List (String × String))
  | [] => .ok []
  | (k, v) :: rest =>
    match expectStr v with
    | .error e => .error e
    | .ok s =>
      match decodeEnvEntries rest with
      | .error e => .error e
      | .ok ps => .ok ((k, s) :: ps)

/-- Fold a list of bindings into the association-list map. -/
def envFromPairs (ps : List (String × String)) : List (String × String) :=
  ps.foldl (fun m kv => envInsert m kv.1 kv.2) []

/-- Modelled from the spec: `decode_environment` — a keyed record of string
values, stored as a map from name to value. -/
def decodeEnvironment (v : Value) : Except String (List (String × String)) :=
  match v with
  | .table entries =>
    match decodeEnvEntries entries with
    | .error e => .error e
    | .ok ps => .ok (envFromPairs ps)
  | _ => .error "invalid type: expected an environment table"

/-- Merge decoded entries into an existing map (append/override semantics of
`added_environment`). -/
def mergeEnv (old new : List (String × String)) : List (String × String) :=
  new.foldl (fun m kv => envInsert m kv.1 kv.2) old

/-- Modelled from the spec: decoding of one image `use` entry, closed set
{layers, environment, working_directory}. -/
def decodeUseEntry (s : String) : Except String ImageUse :=
  if s = "layers" then .ok .Layers
  else if s = "environment" then .ok .Environment
  else if s = "working_directory" then .ok .WorkingDirectory
  else .error ("unknown variant `" ++ s ++ "`, expected one of `layers`, `environment`, `working_directory`")

/-- Decode a sequence of image `use` entries. -/
def decodeUseList : List Value → Except String (List ImageUse)
  | [] => .ok []
  | v :: rest =>
    match expectStr v with
    | .error e => .error e
    | .ok s =>
      match decodeUseEntry s with
      | .error e => .error e
      | .ok u =>
        match decodeUseList rest with
        | .error e => .error e
        | .ok us => .ok (u :: us)

/-- Decode the `use` value of an image reference. -/
def decodeUse (v : Value) : Except String (List ImageUse) :=
  match expectSeq v with
  | .error e => .error e
  | .ok vs => decodeUseList vs

/-- Modelled from the spec: `decode_image_reference` — either a bare name
(implying use = {layers, environment}) or a record with `name` and optional
`use`, the latter defaulting to {layers, environment}. -/
def decodeImage (v : Value) : Except String (String × List ImageUse) :=
  match v with
  | .str x => .ok (x, [.Layers, .Environment])
  | .table entries =>
    match firstUnknownKey entries ["name", "use"] with
    | some k => .error ("unknown field `" ++ k ++ "`, expected `name` or `use`")
    | none =>
      match findVal entries "name" with
      | none => .error "missing field `name`"
      | some nv =>
        match expectStr nv with
        | .error e => .error e
        | .ok x =>
          match findVal entries "use" with
          | none => .ok (x, [.Layers, .Environment])
          | some uv => (decodeUse uv).map (fun us => (x, us))
  | _ => .error "invalid type: expected an image name or image record"

/-- The input key owning each dual-source field, also the `use` spelling. -/
def dualKey : ImageUse → String
  | .Layers => "layers"
  | .Environment => "environment"
  | .WorkingDirectory => "working_directory"

/-- Diagnostic: an explicit dual-source field set after an image that uses
it (wording pinned by the tests in directive.rs). -/
def fieldAfterImageMsg (f : ImageUse) : String :=
  "field `" ++ dualKey f ++ "` cannot be set after `image` field that uses `" ++ dualKey f ++ "`"

/-- Diagnostic: an image that uses a dual-source field set after the
explicit field (wording pinned by the tests in directive.rs). -/
def imageCannotUseMsg (f : ImageUse) : String :=
  "field `image` cannot use `" ++ dualKey f ++ "` if field `" ++ dualKey f ++ "` is also set"

/-- Diagnostic: an image that uses a field set after its added-sibling
(wording pinned by the tests in directive.rs). -/
def imageUseAfterAddedMsg (f : ImageUse) : String :=
  "field `image` that uses `" ++ dualKey f ++ "` cannot be set after `added_" ++ dualKey f ++ "`"

/-- Diagnostic: a replace-field set after its added-sibling (wording pinned
by the tests in directive.rs). -/
def fieldAfterAddedMsg (fname : String) : String :=
  "field `" ++ fname ++ "` cannot be set after `added_" ++ fname ++ "`"

/-- Modelled from the spec: the effect of one image `use` entry on the
container builder (metadata/container.rs, not under src/): the field must not
already be explicit, the added-sibling of layers/environment must be empty,
then the field is marked image-sourced. -/
def applyUse (c : TestContainer) : ImageUse → Except String TestContainer
  | .WorkingDirectory =>
    match c.working_directory with
    | some (.Explicit _) => .error (imageCannotUseMsg .WorkingDirectory)
    | _ => .ok { c with working_directory := some .Image }
  | .Layers =>
    match c.layers with
    | some (.Explicit _) => .error (imageCannotUseMsg .Layers)
    | _ =>
      match c.added_layers with
      | _ :: _ => .error (imageUseAfterAddedMsg .Layers)
      | [] => .ok { c with layers := some .Image }
  | .Environment =>
    match c.environment with
    | some (.Explicit _) => .error (imageCannotUseMsg .Environment)
    | _ =>
      match c.added_environment with
      | _ :: _ => .error (imageUseAfterAddedMsg .Environment)
      | [] => .ok { c with environment := some .Image }

/-- Apply every `use` entry of an image reference in order, aborting at the
first violation. -/
def applyUses (c : TestContainer) : List ImageUse → Except String TestContainer
  | [] => .ok c
  | u :: rest =>
    match applyUse c u with
    | .error e => .error e
    | .ok c' => applyUses c' rest

/-- Modelled from the spec: `TestContainerVisitor::fill_entry` of
metadata/container.rs (not under src/): the per-field accumulation step of
the container builder, enforcing the no-dual-source and replace-before-append
invariants incrementally, with preconditions checked before the field value
is decoded, as the spec's contract table lists them. -/
def containerFill (c : TestContainer) : ContainerField → Value → Except String TestContainer
  | .Network, v => (decodeNetwork v).map fun n => { c with network := some n }
  | .EnableWritableFileSystem, v => (expectBool v).map fun b => { c with enable_writable_file_system := some b }
  | .User, v => (expectU32 v).map fun n => { c with user := some n }
  | .Group, v => (expectU32 v).map fun n => { c with group := some n }
  | .Mounts, v =>
    if c.added_mounts = [] then
      (decodeMounts v).map fun ms => { c with mounts := some ms }
    else .error (fieldAfterAddedMsg "mounts")
  | .AddedMounts, v => (decodeMounts v).map fun ms => { c with added_mounts := c.added_mounts ++ ms }
  | .Image, v =>
    match decodeImage v with
    | .error e => .error e
    | .ok (x, us) => applyUses { c with image := some x } us
  | .WorkingDirectory, v =>
    if c.working_directory = some .Image then .error (fieldAfterImageMsg .WorkingDirectory)
    else (expectStr v).map fun p => { c with working_directory := some (.Explicit p) }
  | .Layers, v =>
    if c.layers = some .Image then .error (fieldAfterImageMsg .Layers)
    else if c.added_layers = [] then
      (decodeLayers v).map fun ls => { c with layers := some (.Explicit ls) }
    else .error (fieldAfterAddedMsg "layers")
  | .AddedLayers, v => (decodeLayers v).map fun ls => { c with added_layers := c.added_layers ++ ls }
  | .Environment, v =>
    if c.environment = some .Image then .error (fieldAfterImageMsg .Environment)
    else if c.added_environment = [] then
      (decodeEnvironment v).map fun m => { c with environment := some (.Explicit m) }
    else .error (fieldAfterAddedMsg "environment")
  | .AddedEnvironment, v => (decodeEnvironment v).map fun m => { c with added_environment := mergeEnv c.added_environment m }

/-- `DirectiveVisitor::fill_entry` of directive.rs: the four directive-only
fields are handled directly, everything else is delegated to the container
builder. -/
def fill_entry (s : TestDirective) : DirectiveField → Value → Except String TestDirective
  | .Filter, v => (expectStr v).map fun str => { s with filter := some str }
  | .IncludeSharedLibraries, v => (expectBool v).map fun b => { s with include_shared_libraries := some b }
  | .Timeout, v => (expectNat v).map fun n => { s with timeout := some (Timeout.new n) }
  | .Ignore, v => (expectBool v).map fun b => { s with ignore := some b }
  | .Network, v => (containerFill s.container .Network v).map fun c => { s with container := c }
  | .EnableWritableFileSystem, v => (containerFill s.container .EnableWritableFileSystem v).map fun c => { s with container := c }
  | .User, v => (containerFill s.container .User v).map fun c => { s with container := c }
  | .Group, v => (containerFill s.container .Group v).map fun c => { s with container := c }
  | .Mounts, v => (containerFill s.container .Mounts v).map fun c => { s with container := c }
  | .AddedMounts, v => (containerFill s.container .AddedMounts v).map fun c => { s with container := c }
  | .Image, v => (containerFill s.container .Image v).map fun c => { s with container := c }
  | .WorkingDirectory, v => (containerFill s.container .WorkingDirectory v).map fun c => { s with container := c }
  | .Layers, v => (containerFill s.container .Layers v).map fun c => { s with container := c }
  | .AddedLayers, v => (containerFill s.container .AddedLayers v).map fun c => { s with container := c }
  | .Environment, v => (containerFill s.container .Environment v).map fun c => { s with container := c }
  | .AddedEnvironment, v => (containerFill s.container .AddedEnvironment v).map fun c => { s with container := c }

/-- One step of `visit_map`: decode the key, then fill the field. -/
def decodeField (s : TestDirective) (kv : String × Value) : Except String TestDirective :=
  match parseDirectiveField kv.1 with
  | .error e => .error e
  | .ok f => fill_entry s f kv.2

/-- The `visit_map` fold over the declaration's key/value pairs. -/
def runFields (s : TestDirective) : List (String × Value) → Except String TestDirective
  | [] => .ok s
  | kv :: rest =>
    match decodeField s kv with
    | .error e => .error e
    | .ok s' => runFields s' rest

/-- Decode one directive declaration from its ordered key/value pairs
(`TestDirective::deserialize`). -/
def decodeDirective (kvs : List (String × Value)) : Except String TestDirective :=
  runFields defaultDirective kvs

/-- Modelled from the spec: a named container definition — a directive-shape
object with an extra `name` string key (metadata/container.rs's
`NamedTestContainer`, not under src/). -/
structure NamedTestContainer where
  name : String
  container : TestContainer
deriving DecidableEq

/-- Modelled from the spec: the named-container `visit_map` fold — the `name`
key is handled directly, every other key exactly as in a directive. -/
def runNamedFields (s : TestDirective) (nm : Option String) :
    List (String × Value) → Except String (TestDirective × Option String)
  | [] => .ok (s, nm)
  | (k, v) :: rest =>
    if k = "name" then
      match expectStr v with
      | .error e => .error e
      | .ok n => runNamedFields s (some n) rest
    else
      match decodeField s (k, v) with
      | .error e => .error e
      | .ok s' => runNamedFields s' nm rest

/-- Modelled from the spec: decode a named container definition; the `name`
key is required, the rest of the object is decoded as a directive and the
resulting container kept. -/
def decodeNamedContainer (kvs : List (String × Value)) : Except String NamedTestContainer :=
  match runNamedFields defaultDirective none kvs with
  | .error e => .error e
  | .ok (_, none) => .error "missing field `name`"
  | .ok (s, some n) => .ok ⟨n, s.container⟩

/-- The dual-source field of a container is image-sourced. -/
def usedIsImageC (c : TestContainer) : ImageUse → Prop
  | .Layers => c.layers = some .Image
  | .Environment => c.environment = some .Image
  | .WorkingDirectory => c.working_directory = some .Image

/-- The dual-source field of a container is explicitly set. -/
def usedExplicitC (c : TestContainer) : ImageUse → Prop
  | .Layers => ∃ x, c.layers = some (.Explicit x)
  | .Environment => ∃ x, c.environment = some (.Explicit x)
  | .WorkingDirectory => ∃ x, c.working_directory = some (.Explicit x)

/-- The pure effect of a successful image `use` entry. -/
def setUse (c : TestContainer) : ImageUse → TestContainer
  | .Layers => { c with layers := some .Image }
  | .Environment => { c with environment := some .Image }
  | .WorkingDirectory => { c with working_directory := some .Image }

/-- Membership in a `use` list. -/
def useMem (f : ImageUse) : List ImageUse → Bool
  | [] => false
  | u :: rest => if u = f then true else useMem f rest

/-- Whether a key/value pair is an image reference whose use set contains
the given field. -/
def imageEntryUses (kv : String × Value) (f : ImageUse) : Bool :=
  if kv.1 = "image" then
    match decodeImage kv.2 with
    | .ok (_, us) => useMem f us
    | .error _ => false
  else false

/-- Whether a declaration references an image whose use set contains f. -/
def hasImageUsing : List (String × Value) → ImageUse → Bool
  | [], _ => false
  | kv :: rest, f => imageEntryUses kv f || hasImageUsing rest f

/-- Whether a declaration contains a given top-level key. -/
def hasKey : List (String × Value) → String → Bool
  | [], _ => false
  | kv :: rest, k => if kv.1 = k then true else hasKey rest k

/-- Character-list prefix test. -/
def chrPfx : List Char → List Char → Bool
  | [], _ => true
  | a :: as, bs =>
    match bs with
    | [] => false
    | b :: rest => if a = b then chrPfx as rest else false

/-- Character-list substring test. -/
def chrSub (needle : List Char) : List Char → Bool
  | [] => chrPfx needle []
  | b :: bs => chrPfx needle (b :: bs) || chrSub needle bs

/-- Substring test on strings: does the haystack contain the needle? -/
def strHas (hay needle : String) : Bool :=
  chrSub needle.toList hay.toList

/-- The mount point of a mount, when the variant has one. -/
def mountPointOf : JobMountForTomlAndJson → Option String
  | .Proc p => some p
  | .Tmp p => some p
  | .Sys p => some p
  | .Bind p _ _ => some p
  | .Devices _ => none

/-- Every mount of a container (replace-list and added-list) avoids the
root mount point. -/
def noRootMounts (c : TestContainer) : Prop :=
  (∀ m, m ∈ c.mounts.getD [] → mountPointOf m ≠ some "/") ∧
  (∀ m, m ∈ c.added_mounts → mountPointOf m ≠ some "/")

/-- The snake_case input key of each directive field. -/
def keyOfField : DirectiveField → String
  | .Filter => "filter"
  | .IncludeSharedLibraries => "include_shared_libraries"
  | .Timeout => "timeout"
  | .Ignore => "ignore"
  | .Network => "network"
  | .EnableWritableFileSystem => "enable_writable_file_system"
  | .User => "user"
  | .Group => "group"
  | .Mounts => "mounts"
  | .AddedMounts => "added_mounts"
  | .Image => "image"
  | .WorkingDirectory => "working_directory"
  | .Layers => "layers"
  | .AddedLayers => "added_layers"
  | .Environment => "environment"
  | .AddedEnvironment => "added_environment"

/-- The directive field that sets a dual-source field explicitly. -/
def dualField : ImageUse → DirectiveField
  | .Layers => .Layers
  | .Environment => .Environment
  | .WorkingDirectory => .WorkingDirectory

/-- The ASCII apostrophe as a string, built by code point. -/
def apos : String := String.mk [Char.ofNat 39]

/-- A one-element tar layer list value, as in the tests. -/
def tarFooVal : Value := .seq [.table [("tar", .str "foo.tar")]]

/-- A one-element tar layer list value, as in the tests. -/
def tarBarVal : Value := .seq [.table [("tar", .str "bar.tar")]]

/-- An image reference value using only layers, as in the tests. -/
def imgUseLayersVal : Value :=
  .table [("name", .str "rust"), ("use", .seq [.str "layers"])]

/-- An image reference value using only environment, as in the tests. -/
def imgUseEnvVal : Value :=
  .table [("name", .str "rust"), ("use", .seq [.str "environment"])]

/-- A one-element tmp mount list value, as in the tests. -/
def tmpMountVal : Value :=
  .seq [.table [("type", .str "tmp"), ("mount_point", .str "/tmp")]]

/-- A one-binding environment table value, as in the tests. -/
def envBarVal : Value := .table [("BAR", .str "bar")]

/-- The default container with an image name recorded, the state of the
builder right before an image reference's use entries are applied. -/
def imgBase (x : String) : TestContainer := { defaultContainer with image := some x }

/-! Basic inversion and fold lemmas. -/

theorem exMap_ok {α β : Type} {g : α → β} {x : Except String α} {b : β} :
    x.map g = .ok b ↔ ∃ a, x = .ok a ∧ b = g a := by
  cases x <;> simp [Except.map, eq_comm]

theorem runFields_append (s : TestDirective) (l₁ l₂ : List (String × Value)) :
    runFields s (l₁ ++ l₂) =
      match runFields s l₁ with
      | .error e => .error e
      | .ok s' => runFields s' l₂ := by
  induction l₁ generalizing s with
  | nil => simp [runFields]
  | cons kv rest ih =>
    simp only [List.cons_append, runFields]
    cases decodeField s kv <;> simp [ih]

theorem runFields_preserve (P : TestDirective → Prop)
    (hpres : ∀ s kv s', decodeField s kv = .ok s' → P s → P s') :
    ∀ (l : List (String × Value)) (s s' : TestDirective),
      runFields s l = .ok s' → P s → P s' := by
  intro l
  induction l with
  | nil =>
    intro s s' h hp
    simp only [runFields] at h
    cases h
    exact hp
  | cons kv rest ih =>
    intro s s' h hp
    simp only [runFields] at h
    cases hd : decodeField s kv with
    | error e => rw [hd] at h; cases h
    | ok s₁ => rw [hd] at h; exact ih s₁ s' h (hpres s kv s₁ hd hp)

theorem runFields_err (P : TestDirective → Prop) (T : String × Value → Prop)
    (hpres : ∀ s kv s', decodeField s kv = .ok s' → P s → P s')
    (htrig : ∀ s kv, P s → T kv → ∃ e, decodeField s kv = .error e) :
    ∀ (l : List (String × Value)) (s : TestDirective),
      P s → (∃ kv ∈ l, T kv) → ∃ e, runFields s l = .error e := by
  intro l
  induction l with
  | nil =>
    intro s _ hmem
    obtain ⟨kv, hkv, _⟩ := hmem
    cases hkv
  | cons kv rest ih =>
    intro s hp hmem
    obtain ⟨kv', hkv', hT⟩ := hmem
    rcases List.mem_cons.mp hkv' with h | h
    · subst h
      obtain ⟨e, he⟩ := htrig s kv' hp hT
      exact ⟨e, by simp [runFields, he]⟩
    · cases hd : decodeField s kv with
      | error e => exact ⟨e, by simp [runFields, hd]⟩
      | ok s₁ =>
        obtain ⟨e, he⟩ := ih s₁ (hpres s kv s₁ hd hp) ⟨kv', h, hT⟩
        exact ⟨e, by simp [runFields, hd, he]⟩

theorem hasKey_exists {l : List (String × Value)} {k : String}
    (h : hasKey l k = true) : ∃ kv ∈ l, kv.1 = k := by
  induction l with
  | nil => simp [hasKey] at h
  | cons kv rest ih =>
    simp only [hasKey] at h
    split at h
    · exact ⟨kv, List.mem_cons_self kv rest, by assumption⟩
    · obtain ⟨kv', hm, hk⟩ := ih h
      exact ⟨kv', List.mem_cons_of_mem kv hm, hk⟩

theorem hasImageUsing_exists {l : List (String × Value)} {f : ImageUse}
    (h : hasImageUsing l f = true) : ∃ kv ∈ l, imageEntryUses kv f = true := by
  induction l with
  | nil => simp [hasImageUsing] at h
  | cons kv rest ih =>
    simp only [hasImageUsing, Bool.or_eq_true] at h
    rcases h with h | h
    · exact ⟨kv, List.mem_cons_self kv rest, h⟩
    · obtain ⟨kv', hm, hk⟩ := ih h
      exact ⟨kv', List.mem_cons_of_mem kv hm, hk⟩

theorem imageEntryUses_elim {kv : String × Value} {f : ImageUse}
    (h : imageEntryUses kv f = true) :
    kv.1 = "image" ∧ ∃ x us, decodeImage kv.2 = .ok (x, us) ∧ useMem f us = true := by
  unfold imageEntryUses at h
  split at h
  · refine ⟨by assumption, ?_⟩
    split at h
    · next x us heq => exact ⟨x, us, heq, h⟩
    · cases h
  · cases h

theorem lookupField_some {t : List (String × DirectiveField)} {k : String}
    {f : DirectiveField} (h : lookupField t k = some f) : (k, f) ∈ t := by
  induction t with
  | nil => simp [lookupField] at h
  | cons p rest ih =>
    obtain ⟨k', f'⟩ := p
    simp only [lookupField] at h
    split at h
    · cases h
      subst_vars
      exact List.mem_cons_self _ _
    · exact List.mem_cons_of_mem _ (ih h)

theorem lookupField_none {t : List (String × DirectiveField)} {k : String}
    (h : ∀ p ∈ t, k ≠ p.1) : lookupField t k = none := by
  induction t with
  | nil => rfl
  | cons p rest ih =>
    obtain ⟨k', f'⟩ := p
    simp only [lookupField]
    rw [if_neg (h (k', f') (List.mem_cons_self _ _))]
    exact ih fun p hp => h p (List.mem_cons_of_mem _ hp)

theorem fieldKeyTable_keys : ∀ p ∈ fieldKeyTable, p.1 = keyOfField p.2 := by decide

theorem parse_ok_key {k : String} {f : DirectiveField}
    (h : parseDirectiveField k = .ok f) : k = keyOfField f := by
  unfold parseDirectiveField at h
  cases hl : lookupField fieldKeyTable k with
  | none => rw [hl] at h; cases h
  | some f' =>
    rw [hl] at h
    cases h
    exact fieldKeyTable_keys _ (lookupField_some hl)

theorem fieldNames_eq_table_keys : directiveFieldNames = fieldKeyTable.map Prod.fst := by
  rfl

theorem parse_unknown {k : String} (hk : k ∉ directiveFieldNames) :
    parseDirectiveField k = .error (unknownFieldMsg k) := by
  unfold parseDirectiveField
  rw [lookupField_none]
  intro p hp hkp
  exact hk (by rw [fieldNames_eq_table_keys, hkp]; exact List.mem_map_of_mem Prod.fst hp)

/-! Lemmas about a single image `use` entry and the fold over a use list. -/

theorem setUse_added_layers (c : TestContainer) (u : ImageUse) :
    (setUse c u).added_layers = c.added_layers := by
  cases u <;> rfl

theorem setUse_added_environment (c : TestContainer) (u : ImageUse) :
    (setUse c u).added_environment = c.added_environment := by
  cases u <;> rfl

theorem setUse_added_mounts (c : TestContainer) (u : ImageUse) :
    (setUse c u).added_mounts = c.added_mounts := by
  cases u <;> rfl

theorem setUse_mounts (c : TestContainer) (u : ImageUse) :
    (setUse c u).mounts = c.mounts := by
  cases u <;> rfl

theorem setUse_image_field (c : TestContainer) (u : ImageUse) :
    (setUse c u).image = c.image := by
  cases u <;> rfl

theorem setUse_self_image (c : TestContainer) (u : ImageUse) :
    usedIsImageC (setUse c u) u := by
  cases u <;> simp [setUse, usedIsImageC]

theorem setUse_pres_image {c : TestContainer} {f : ImageUse} (u : ImageUse)
    (h : usedIsImageC c f) : usedIsImageC (setUse c u) f := by
  cases u <;> cases f <;> simp_all [setUse, usedIsImageC]

theorem setUse_pres_explicit {c : TestContainer} {f : ImageUse} {u : ImageUse}
    (hne : u ≠ f) (h : usedExplicitC c f) : usedExplicitC (setUse c u) f := by
  cases u <;> cases f <;> simp_all [setUse, usedExplicitC]

theorem setUse_pres_not_explicit {c : TestContainer} {f : ImageUse} (u : ImageUse)
    (h : ¬ usedExplicitC c f) : ¬ usedExplicitC (setUse c u) f := by
  cases u <;> cases f <;> simp_all [setUse, usedExplicitC]

theorem setUse_pres_not_image {c : TestContainer} {f : ImageUse} {u : ImageUse}
    (hne : u ≠ f) (h : ¬ usedIsImageC c f) : ¬ usedIsImageC (setUse c u) f := by
  cases u <;> cases f <;> simp_all [setUse, usedIsImageC]

theorem useMem_head (u : ImageUse) (rest : List ImageUse) :
    useMem u (u :: rest) = true := by
  simp [useMem]

theorem useMem_cons_of {f : ImageUse} {rest : List ImageUse} (u : ImageUse)
    (h : useMem f rest = true) : useMem f (u :: rest) = true := by
  simp only [useMem]
  split <;> simp [h]

theorem useMem_cons_elim {f u : ImageUse} {rest : List ImageUse}
    (h : useMem f (u :: rest) = true) : u = f ∨ useMem f rest = true := by
  simp only [useMem] at h
  split at h
  · left; assumption
  · right; exact h

theorem useMem_cons_false {f u : ImageUse} {rest : List ImageUse}
    (h : useMem f (u :: rest) = false) : u ≠ f ∧ useMem f rest = false := by
  simp only [useMem] at h
  split at h
  · cases h
  · exact ⟨by assumption, h⟩

theorem applyUse_ok {c c' : TestContainer} {u : ImageUse}
    (h : applyUse c u = .ok c') : c' = setUse c u := by
  cases u <;> simp only [applyUse] at h
  case WorkingDirectory =>
    split at h
    · cases h
    · cases h; rfl
  case Layers =>
    split at h
    · cases h
    · split at h
      · cases h
      · cases h; rfl
  case Environment =>
    split at h
    · cases h
    · split at h
      · cases h
      · cases h; rfl

theorem applyUse_err_explicit {c : TestContainer} {u : ImageUse}
    (h : usedExplicitC c u) : applyUse c u = .error (imageCannotUseMsg u) := by
  cases u <;> obtain ⟨x, hx⟩ := h <;> simp [applyUse, hx]

theorem applyUse_layers_err {c : TestContainer} (h : c.added_layers ≠ []) :
    ∃ e, applyUse c .Layers = .error e := by
  simp only [applyUse]
  split
  · exact ⟨_, rfl⟩
  · split
    · exact ⟨_, rfl⟩
    · next heq => exact absurd heq h

theorem applyUse_env_err {c : TestContainer} (h : c.added_environment ≠ []) :
    ∃ e, applyUse c .Environment = .error e := by
  simp only [applyUse]
  split
  · exact ⟨_, rfl⟩
  · split
    · exact ⟨_, rfl⟩
    · next heq => exact absurd heq h

theorem applyUse_ok_of {c : TestContainer} {u : ImageUse}
    (hexp : ¬ usedExplicitC c u)
    (hlay : u = .Layers → c.added_layers = [])
    (henv : u = .Environment → c.added_environment = []) :
    applyUse c u = .ok (setUse c u) := by
  cases u
  case Layers =>
    simp only [applyUse]
    split
    · next x heq => exact absurd ⟨x, heq⟩ hexp
    · split
      · next a rest heq => rw [hlay rfl] at heq; cases heq
      · rfl
  case Environment =>
    simp only [applyUse]
    split
    · next x heq => exact absurd ⟨x, heq⟩ hexp
    · split
      · next a rest heq => rw [henv rfl] at heq; cases heq
      · rfl
  case WorkingDirectory =>
    simp only [applyUse]
    split
    · next x heq => exact absurd ⟨x, heq⟩ hexp
    · rfl

theorem applyUses_ok_foldl {us : List ImageUse} :
    ∀ {c c' : TestContainer}, applyUses c us = .ok c' → c' = us.foldl setUse c := by
  induction us with
  | nil => intro c c' h; cases h; rfl
  | cons u rest ih =>
    intro c c' h
    simp only [applyUses] at h
    cases ha : applyUse c u with
    | error e => rw [ha] at h; cases h
    | ok c₁ =>
      rw [ha] at h
      rw [List.foldl_cons, ← applyUse_ok ha]
      exact ih h

theorem applyUses_err_of_explicit {us : List ImageUse} :
    ∀ {c : TestContainer} {f : ImageUse}, useMem f us = true → usedExplicitC c f →
      ∃ e, applyUses c us = .error e := by
  induction us with
  | nil => intro c f h _; simp [useMem] at h
  | cons u rest ih =>
    intro c f hmem hexp
    rcases useMem_cons_elim hmem with rfl | hmem'
    · refine ⟨imageCannotUseMsg u, ?_⟩
      simp [applyUses, applyUse_err_explicit hexp]
    · cases ha : applyUse c u with
      | error e => exact ⟨e, by simp [applyUses, ha]⟩
      | ok c₁ =>
        by_cases huf : u = f
        · subst huf
          rw [applyUse_err_explicit hexp] at ha
          cases ha
        · obtain ⟨e, he⟩ := ih hmem' (applyUse_ok ha ▸ setUse_pres_explicit huf hexp)
          exact ⟨e, by simp [applyUses, ha, he]⟩

theorem applyUses_err_added_layers {us : List ImageUse} :
    ∀ {c : TestContainer}, useMem .Layers us = true → c.added_layers ≠ [] →
      ∃ e, applyUses c us = .error e := by
  induction us with
  | nil => intro c h _; simp [useMem] at h
  | cons u rest ih =>
    intro c hmem hal
    by_cases huf : u = ImageUse.Layers
    · subst huf
      obtain ⟨e, he⟩ := applyUse_layers_err hal
      exact ⟨e, by simp [applyUses, he]⟩
    · rcases useMem_cons_elim hmem with h | hmem'
      · exact absurd h huf
      · cases ha : applyUse c u with
        | error e => exact ⟨e, by simp [applyUses, ha]⟩
        | ok c₁ =>
          have : c₁.added_layers ≠ [] := by
            rw [applyUse_ok ha, setUse_added_layers]; exact hal
          obtain ⟨e, he⟩ := ih hmem' this
          exact ⟨e, by simp [applyUses, ha, he]⟩

theorem applyUses_err_added_env {us : List ImageUse} :
    ∀ {c : TestContainer}, useMem .Environment us = true → c.added_environment ≠ [] →
      ∃ e, applyUses c us = .error e := by
  induction us with
  | nil => intro c h _; simp [useMem] at h
  | cons u rest ih =>
    intro c hmem hal
    by_cases huf : u = ImageUse.Environment
    · subst huf
      obtain ⟨e, he⟩ := applyUse_env_err hal
      exact ⟨e, by simp [applyUses, he]⟩
    · rcases useMem_cons_elim hmem with h | hmem'
      · exact absurd h huf
      · cases ha : applyUse c u with
        | error e => exact ⟨e, by simp [applyUses, ha]⟩
        | ok c₁ =>
          have : c₁.added_environment ≠ [] := by
            rw [applyUse_ok ha, setUse_added_environment]; exact hal
          obtain ⟨e, he⟩ := ih hmem' this
          exact ⟨e, by simp [applyUses, ha, he]⟩

theorem foldl_setUse_pres_image {us : List ImageUse} :
    ∀ {c : TestContainer} {f : ImageUse}, usedIsImageC c f →
      usedIsImageC (us.foldl setUse c) f := by
  induction us with
  | nil => intro c f h; exact h
  | cons u rest ih => intro c f h; exact ih (setUse_pres_image u h)

theorem foldl_setUse_image_mem {us : List ImageUse} :
    ∀ {c : TestContainer} {f : ImageUse}, useMem f us = true →
      usedIsImageC (us.foldl setUse c) f := by
  induction us with
  | nil => intro c f h; simp [useMem] at h
  | cons u rest ih =>
    intro c f hmem
    rcases useMem_cons_elim hmem with rfl | hmem'
    · rw [List.foldl_cons]
      exact foldl_setUse_pres_image (setUse_self_image c u)
    · rw [List.foldl_cons]
      exact ih hmem'

theorem foldl_setUse_pres_explicit {us : List ImageUse} :
    ∀ {c : TestContainer} {f : ImageUse}, useMem f us = false → usedExplicitC c f →
      usedExplicitC (us.foldl setUse c) f := by
  induction us with
  | nil => intro c f _ h; exact h
  | cons u rest ih =>
    intro c f hmem hexp
    obtain ⟨hne, hmem'⟩ := useMem_cons_false hmem
    exact ih hmem' (setUse_pres_explicit hne hexp)

theorem foldl_setUse_pres_not_image {us : List ImageUse} :
    ∀ {c : TestContainer} {f : ImageUse}, useMem f us = false → ¬ usedIsImageC c f →
      ¬ usedIsImageC (us.foldl setUse c) f := by
  induction us with
  | nil => intro c f _ h; exact h
  | cons u rest ih =>
    intro c f hmem hexp
    obtain ⟨hne, hmem'⟩ := useMem_cons_false hmem
    exact ih hmem' (setUse_pres_not_image hne hexp)

theorem foldl_setUse_added_layers (us : List ImageUse) :
    ∀ c : TestContainer, (us.foldl setUse c).added_layers = c.added_layers := by
  induction us with
  | nil => intro c; rfl
  | cons u rest ih => intro c; rw [List.foldl_cons, ih, setUse_added_layers]

theorem foldl_setUse_added_environment (us : List ImageUse) :
    ∀ c : TestContainer, (us.foldl setUse c).added_environment = c.added_environment := by
  induction us with
  | nil => intro c; rfl
  | cons u rest ih => intro c; rw [List.foldl_cons, ih, setUse_added_environment]

theorem foldl_setUse_added_mounts (us : List ImageUse) :
    ∀ c : TestContainer, (us.foldl setUse c).added_mounts = c.added_mounts := by
  induction us with
  | nil => intro c; rfl
  | cons u rest ih => intro c; rw [List.foldl_cons, ih, setUse_added_mounts]

theorem foldl_setUse_mounts (us : List ImageUse) :
    ∀ c : TestContainer, (us.foldl setUse c).mounts = c.mounts := by
  induction us with
  | nil => intro c; rfl
  | cons u rest ih => intro c; rw [List.foldl_cons, ih, setUse_mounts]

theorem foldl_setUse_image_field (us : List ImageUse) :
    ∀ c : TestContainer, (us.foldl setUse c).image = c.image := by
  induction us with
  | nil => intro c; rfl
  | cons u rest ih => intro c; rw [List.foldl_cons, ih, setUse_image_field]

theorem applyUses_ok_of {us : List ImageUse} :
    ∀ {c : TestContainer},
      (∀ u, useMem u us = true → ¬ usedExplicitC c u) →
      (useMem .Layers us = true → c.added_layers = []) →
      (useMem .Environment us = true → c.added_environment = []) →
      applyUses c us = .ok (us.foldl setUse c) := by
  induction us with
  | nil => intro c _ _ _; rfl
  | cons u rest ih =>
    intro c hexp hlay henv
    have h1 : applyUse c u = .ok (setUse c u) :=
      applyUse_ok_of (hexp u (useMem_head u rest))
        (fun h => hlay (h ▸ useMem_head u rest))
        (fun h => henv (h ▸ useMem_head u rest))
    simp only [applyUses, h1, List.foldl_cons]
    exact ih
      (fun u' hm => setUse_pres_not_explicit u (hexp u' (useMem_cons_of u hm)))
      (fun hm => by rw [setUse_added_layers]; exact hlay (useMem_cons_of u hm))
      (fun hm => by rw [setUse_added_environment]; exact henv (useMem_cons_of u hm))

/-! Success inversions for each container builder field. -/

theorem cf_Network_ok {c : TestContainer} {v : Value} {c' : TestContainer}
    (h : containerFill c .Network v = .ok c') :
    ∃ n, decodeNetwork v = .ok n ∧ c' = { c with network := some n } := by
  simp only [containerFill] at h
  obtain ⟨n, hn, rfl⟩ := exMap_ok.mp h
  exact ⟨n, hn, rfl⟩

theorem cf_EWFS_ok {c : TestContainer} {v : Value} {c' : TestContainer}
    (h : containerFill c .EnableWritableFileSystem v = .ok c') :
    ∃ b, expectBool v = .ok b ∧ c' = { c with enable_writable_file_system := some b } := by
  simp only [containerFill] at h
  obtain ⟨b, hb, rfl⟩ := exMap_ok.mp h
  exact ⟨b, hb, rfl⟩

theorem cf_User_ok {c : TestContainer} {v : Value} {c' : TestContainer}
    (h : containerFill c .User v = .ok c') :
    ∃ n, expectU32 v = .ok n ∧ c' = { c with user := some n } := by
  simp only [containerFill] at h
  obtain ⟨n, hn, rfl⟩ := exMap_ok.mp h
  exact ⟨n, hn, rfl⟩

theorem cf_Group_ok {c : TestContainer} {v : Value} {c' : TestContainer}
    (h : containerFill c .Group v = .ok c') :
    ∃ n, expectU32 v = .ok n ∧ c' = { c with group := some n } := by
  simp only [containerFill] at h
  obtain ⟨n, hn, rfl⟩ := exMap_ok.mp h
  exact ⟨n, hn, rfl⟩

theorem cf_Mounts_ok {c : TestContainer} {v : Value} {c' : TestContainer}
    (h : containerFill c .Mounts v = .ok c') :
    c.added_mounts = [] ∧ ∃ ms, decodeMounts v = .ok ms ∧ c' = { c with mounts := some ms } := by
  simp only [containerFill] at h
  split_ifs at h with hc
  obtain ⟨ms, hms, rfl⟩ := exMap_ok.mp h
  exact ⟨hc, ms, hms, rfl⟩

theorem cf_AddedMounts_ok {c : TestContainer} {v : Value} {c' : TestContainer}
    (h : containerFill c .AddedMounts v = .ok c') :
    ∃ ms, decodeMounts v = .ok ms ∧ c' = { c with added_mounts := c.added_mounts ++ ms } := by
  simp only [containerFill] at h
  obtain ⟨ms, hms, rfl⟩ := exMap_ok.mp h
  exact ⟨ms, hms, rfl⟩

theorem cf_Image_ok {c : TestContainer} {v : Value} {c' : TestContainer}
    (h : containerFill c .Image v = .ok c') :
    ∃ x us, decodeImage v = .ok (x, us) ∧ applyUses { c with image := some x } us = .ok c' := by
  simp only [containerFill] at h
  split at h
  · cases h
  · next x us heq => exact ⟨x, us, heq, h⟩

theorem cf_WD_ok {c : TestContainer} {v : Value} {c' : TestContainer}
    (h : containerFill c .WorkingDirectory v = .ok c') :
    c.working_directory ≠ some .Image ∧
      ∃ p, expectStr v = .ok p ∧ c' = { c with working_directory := some (.Explicit p) } := by
  simp only [containerFill] at h
  split_ifs at h with hc
  obtain ⟨p, hp, rfl⟩ := exMap_ok.mp h
  exact ⟨hc, p, hp, rfl⟩

theorem cf_Layers_ok {c : TestContainer} {v : Value} {c' : TestContainer}
    (h : containerFill c .Layers v = .ok c') :
    c.layers ≠ some .Image ∧ c.added_layers = [] ∧
      ∃ ls, decodeLayers v = .ok ls ∧ c' = { c with layers := some (.Explicit ls) } := by
  simp only [containerFill] at h
  split_ifs at h with h1 h2
  obtain ⟨ls, hls, rfl⟩ := exMap_ok.mp h
  exact ⟨h1, h2, ls, hls, rfl⟩

theorem cf_AddedLayers_ok {c : TestContainer} {v : Value} {c' : TestContainer}
    (h : containerFill c .AddedLayers v = .ok c') :
    ∃ ls, decodeLayers v = .ok ls ∧ c' = { c with added_layers := c.added_layers ++ ls } := by
  simp only [containerFill] at h
  obtain ⟨ls, hls, rfl⟩ := exMap_ok.mp h
  exact ⟨ls, hls, rfl⟩

theorem cf_Environment_ok {c : TestContainer} {v : Value} {c' : TestContainer}
    (h : containerFill c .Environment v = .ok c') :
    c.environment ≠ some .Image ∧ c.added_environment = [] ∧
      ∃ m, decodeEnvironment v = .ok m ∧ c' = { c with environment := some (.Explicit m) } := by
  simp only [containerFill] at h
  split_ifs at h with h1 h2
  obtain ⟨m, hm, rfl⟩ := exMap_ok.mp h
  exact ⟨h1, h2, m, hm, rfl⟩

theorem cf_AddedEnvironment_ok {c : TestContainer} {v : Value} {c' : TestContainer}
    (h : containerFill c .AddedEnvironment v = .ok c') :
    ∃ m, decodeEnvironment v = .ok m ∧
      c' = { c with added_environment := mergeEnv c.added_environment m } := by
  simp only [containerFill] at h
  obtain ⟨m, hm, rfl⟩ := exMap_ok.mp h
  exact ⟨m, hm, rfl⟩

/-! Preservation of builder-state predicates across one accepted field. -/

theorem cfp_image (f : ImageUse) :
    ∀ (c : TestContainer) (cf : ContainerField) (v : Value) (c' : TestContainer),
      containerFill c cf v = .ok c' → usedIsImageC c f → usedIsImageC c' f := by
  intro c cf v c' h hp
  cases cf
  case Network =>
    obtain ⟨a, _, rfl⟩ := cf_Network_ok h
    cases f <;> exact hp
  case EnableWritableFileSystem =>
    obtain ⟨a, _, rfl⟩ := cf_EWFS_ok h
    cases f <;> exact hp
  case User =>
    obtain ⟨a, _, rfl⟩ := cf_User_ok h
    cases f <;> exact hp
  case Group =>
    obtain ⟨a, _, rfl⟩ := cf_Group_ok h
    cases f <;> exact hp
  case Mounts =>
    obtain ⟨_, a, _, rfl⟩ := cf_Mounts_ok h
    cases f <;> exact hp
  case AddedMounts =>
    obtain ⟨a, _, rfl⟩ := cf_AddedMounts_ok h
    cases f <;> exact hp
  case Image =>
    obtain ⟨x, us, _, happ⟩ := cf_Image_ok h
    rw [applyUses_ok_foldl happ]
    apply foldl_setUse_pres_image
    cases f <;> exact hp
  case WorkingDirectory =>
    obtain ⟨hne, p, _, rfl⟩ := cf_WD_ok h
    cases f
    case WorkingDirectory => exact absurd hp hne
    case Layers => exact hp
    case Environment => exact hp
  case Layers =>
    obtain ⟨hne, _, ls, _, rfl⟩ := cf_Layers_ok h
    cases f
    case Layers => exact absurd hp hne
    case WorkingDirectory => exact hp
    case Environment => exact hp
  case AddedLayers =>
    obtain ⟨a, _, rfl⟩ := cf_AddedLayers_ok h
    cases f <;> exact hp
  case Environment =>
    obtain ⟨hne, _, m, _, rfl⟩ := cf_Environment_ok h
    cases f
    case Environment => exact absurd hp hne
    case WorkingDirectory => exact hp
    case Layers => exact hp
  case AddedEnvironment =>
    obtain ⟨a, _, rfl⟩ := cf_AddedEnvironment_ok h
    cases f <;> exact hp

theorem cfp_explicit (f : ImageUse) :
    ∀ (c : TestContainer) (cf : ContainerField) (v : Value) (c' : TestContainer),
      containerFill c cf v = .ok c' → usedExplicitC c f → usedExplicitC c' f := by
  intro c cf v c' h hp
  cases cf
  case Network =>
    obtain ⟨a, _, rfl⟩ := cf_Network_ok h
    cases f <;> exact hp
  case EnableWritableFileSystem =>
    obtain ⟨a, _, rfl⟩ := cf_EWFS_ok h
    cases f <;> exact hp
  case User =>
    obtain ⟨a, _, rfl⟩ := cf_User_ok h
    cases f <;> exact hp
  case Group =>
    obtain ⟨a, _, rfl⟩ := cf_Group_ok h
    cases f <;> exact hp
  case Mounts =>
    obtain ⟨_, a, _, rfl⟩ := cf_Mounts_ok h
    cases f <;> exact hp
  case AddedMounts =>
    obtain ⟨a, _, rfl⟩ := cf_AddedMounts_ok h
    cases f <;> exact hp
  case Image =>
    obtain ⟨x, us, _, happ⟩ := cf_Image_ok h
    have hp' : usedExplicitC { c with image := some x } f := by
      cases f <;> exact hp
    cases hm : useMem f us with
    | true =>
      obtain ⟨e, he⟩ := applyUses_err_of_explicit hm hp'
      rw [he] at happ
      cases happ
    | false =>
      rw [applyUses_ok_foldl happ]
      exact foldl_setUse_pres_explicit hm hp'
  case WorkingDirectory =>
    obtain ⟨hne, p, _, rfl⟩ := cf_WD_ok h
    cases f
    case WorkingDirectory => exact ⟨p, rfl⟩
    case Layers => exact hp
    case Environment => exact hp
  case Layers =>
    obtain ⟨hne, _, ls, _, rfl⟩ := cf_Layers_ok h
    cases f
    case Layers => exact ⟨ls, rfl⟩
    case WorkingDirectory => exact hp
    case Environment => exact hp
  case AddedLayers =>
    obtain ⟨a, _, rfl⟩ := cf_AddedLayers_ok h
    cases f <;> exact hp
  case Environment =>
    obtain ⟨hne, _, m, _, rfl⟩ := cf_Environment_ok h
    cases f
    case Environment => exact ⟨m, rfl⟩
    case WorkingDirectory => exact hp
    case Layers => exact hp
  case AddedEnvironment =>
    obtain ⟨a, _, rfl⟩ := cf_AddedEnvironment_ok h
    cases f <;> exact hp

theorem cfp_added_mounts_ne :
    ∀ (c : TestContainer) (cf : ContainerField) (v : Value) (c' : TestContainer),
      containerFill c cf v = .ok c' → c.added_mounts ≠ [] → c'.added_mounts ≠ [] := by
  intro c cf v c' h hp
  cases cf
  case Network => obtain ⟨a, _, rfl⟩ := cf_Network_ok h; exact hp
  case EnableWritableFileSystem => obtain ⟨a, _, rfl⟩ := cf_EWFS_ok h; exact hp
  case User => obtain ⟨a, _, rfl⟩ := cf_User_ok h; exact hp
  case Group => obtain ⟨a, _, rfl⟩ := cf_Group_ok h; exact hp
  case Mounts => exact absurd (cf_Mounts_ok h).1 hp
  case AddedMounts =>
    obtain ⟨ms, _, rfl⟩ := cf_AddedMounts_ok h
    intro he
    exact hp (List.append_eq_nil.mp he).1
  case Image =>
    obtain ⟨x, us, _, happ⟩ := cf_Image_ok h
    rw [applyUses_ok_foldl happ, foldl_setUse_added_mounts]
    exact hp
  case WorkingDirectory => obtain ⟨_, p, _, rfl⟩ := cf_WD_ok h; exact hp
  case Layers => obtain ⟨_, _, ls, _, rfl⟩ := cf_Layers_ok h; exact hp
  case AddedLayers => obtain ⟨a, _, rfl⟩ := cf_AddedLayers_ok h; exact hp
  case Environment => obtain ⟨_, _, m, _, rfl⟩ := cf_Environment_ok h; exact hp
  case AddedEnvironment => obtain ⟨a, _, rfl⟩ := cf_AddedEnvironment_ok h; exact hp

theorem cfp_added_layers_ne :
    ∀ (c : TestContainer) (cf : ContainerField) (v : Value) (c' : TestContainer),
      containerFill c cf v = .ok c' → c.added_layers ≠ [] → c'.added_layers ≠ [] := by
  intro c cf v c' h hp
  cases cf
  case Network => obtain ⟨a, _, rfl⟩ := cf_Network_ok h; exact hp
  case EnableWritableFileSystem => obtain ⟨a, _, rfl⟩ := cf_EWFS_ok h; exact hp
  case User => obtain ⟨a, _, rfl⟩ := cf_User_ok h; exact hp
  case Group => obtain ⟨a, _, rfl⟩ := cf_Group_ok h; exact hp
  case Mounts => obtain ⟨_, a, _, rfl⟩ := cf_Mounts_ok h; exact hp
  case AddedMounts => obtain ⟨a, _, rfl⟩ := cf_AddedMounts_ok h; exact hp
  case Image =>
    obtain ⟨x, us, _, happ⟩ := cf_Image_ok h
    rw [applyUses_ok_foldl happ, foldl_setUse_added_layers]
    exact hp
  case WorkingDirectory => obtain ⟨_, p, _, rfl⟩ := cf_WD_ok h; exact hp
  case Layers => exact absurd (cf_Layers_ok h).2.1 hp
  case AddedLayers =>
    obtain ⟨ls, _, rfl⟩ := cf_AddedLayers_ok h
    intro he
    exact hp (List.append_eq_nil.mp he).1
  case Environment => obtain ⟨_, _, m, _, rfl⟩ := cf_Environment_ok h; exact hp
  case AddedEnvironment => obtain ⟨a, _, rfl⟩ := cf_AddedEnvironment_ok h; exact hp

theorem envInsert_ne_nil (m : List (String × String)) (k v : String) :
    envInsert m k v ≠ [] := by
  cases m with
  | nil => simp [envInsert]
  | cons p rest =>
    obtain ⟨k', v'⟩ := p
    simp only [envInsert]
    split_ifs <;> simp

theorem foldl_envInsert_ne_nil :
    ∀ (ps : List (String × String)) (m : List (String × String)), m ≠ [] →
      ps.foldl (fun m kv => envInsert m kv.1 kv.2) m ≠ [] := by
  intro ps
  induction ps with
  | nil => intro m hm; exact hm
  | cons kv rest ih =>
    intro m _
    rw [List.foldl_cons]
    exact ih _ (envInsert_ne_nil m kv.1 kv.2)

theorem mergeEnv_ne_nil {old : List (String × String)} (new : List (String × String))
    (h : old ≠ []) : mergeEnv old new ≠ [] :=
  foldl_envInsert_ne_nil new old h

theorem mergeEnv_ne_nil_right (old : List (String × String)) {m : List (String × String)}
    (h : m ≠ []) : mergeEnv old m ≠ [] := by
  cases m with
  | nil => exact absurd rfl h
  | cons kv rest =>
    show rest.foldl (fun acc p => envInsert acc p.1 p.2) (envInsert old kv.1 kv.2) ≠ []
    exact foldl_envInsert_ne_nil rest _ (envInsert_ne_nil old kv.1 kv.2)

theorem cfp_added_env_ne :
    ∀ (c : TestContainer) (cf : ContainerField) (v : Value) (c' : TestContainer),
      containerFill c cf v = .ok c' → c.added_environment ≠ [] → c'.added_environment ≠ [] := by
  intro c cf v c' h hp
  cases cf
  case Network => obtain ⟨a, _, rfl⟩ := cf_Network_ok h; exact hp
  case EnableWritableFileSystem => obtain ⟨a, _, rfl⟩ := cf_EWFS_ok h; exact hp
  case User => obtain ⟨a, _, rfl⟩ := cf_User_ok h; exact hp
  case Group => obtain ⟨a, _, rfl⟩ := cf_Group_ok h; exact hp
  case Mounts => obtain ⟨_, a, _, rfl⟩ := cf_Mounts_ok h; exact hp
  case AddedMounts => obtain ⟨a, _, rfl⟩ := cf_AddedMounts_ok h; exact hp
  case Image =>
    obtain ⟨x, us, _, happ⟩ := cf_Image_ok h
    rw [applyUses_ok_foldl happ, foldl_setUse_added_environment]
    exact hp
  case WorkingDirectory => obtain ⟨_, p, _, rfl⟩ := cf_WD_ok h; exact hp
  case Layers => obtain ⟨_, _, ls, _, rfl⟩ := cf_Layers_ok h; exact hp
  case AddedLayers => obtain ⟨a, _, rfl⟩ := cf_AddedLayers_ok h; exact hp
  case Environment => exact absurd (cf_Environment_ok h).2.1 hp
  case AddedEnvironment =>
    obtain ⟨m, _, rfl⟩ := cf_AddedEnvironment_ok h
    exact mergeEnv_ne_nil m hp

/-! From the container builder up to whole decode steps. -/

theorem fe_pres_container (Pc : TestContainer → Prop)
    (hc : ∀ (c : TestContainer) (cf : ContainerField) (v : Value) (c' : TestContainer),
      containerFill c cf v = .ok c' → Pc c → Pc c') :
    ∀ (s : TestDirective) (f : DirectiveField) (v : Value) (s' : TestDirective),
      fill_entry s f v = .ok s' → Pc s.container → Pc s'.container := by
  intro s f v s' h hp
  cases f <;> simp only [fill_entry] at h <;> obtain ⟨a, ha, rfl⟩ := exMap_ok.mp h <;>
    first
    | exact hp
    | exact hc _ _ _ _ ha hp

theorem df_pres_container (Pc : TestContainer → Prop)
    (hc : ∀ (c : TestContainer) (cf : ContainerField) (v : Value) (c' : TestContainer),
      containerFill c cf v = .ok c' → Pc c → Pc c') :
    ∀ (s : TestDirective) (kv : String × Value) (s' : TestDirective),
      decodeField s kv = .ok s' → Pc s.container → Pc s'.container := by
  intro s kv s' h hp
  unfold decodeField at h
  split at h
  · cases h
  · exact fe_pres_container Pc hc s _ kv.2 s' h hp

theorem fe_pres_timeout {s : TestDirective} {f : DirectiveField} {v : Value}
    {s' : TestDirective} (hne : f ≠ DirectiveField.Timeout)
    (h : fill_entry s f v = .ok s') : s'.timeout = s.timeout := by
  cases f
  case Timeout => exact absurd rfl hne
  all_goals (simp only [fill_entry] at h; obtain ⟨a, _, rfl⟩ := exMap_ok.mp h; rfl)

theorem df_pres_timeout {s : TestDirective} {kv : String × Value} {s' : TestDirective}
    (hne : kv.1 ≠ "timeout") (h : decodeField s kv = .ok s') : s'.timeout = s.timeout := by
  unfold decodeField at h
  split at h
  · cases h
  · next f heq =>
    refine fe_pres_timeout ?_ h
    intro hf
    subst hf
    exact hne (parse_ok_key heq)

theorem decodeField_eq_fill {k : String} {f : DirectiveField}
    (hk : parseDirectiveField k = .ok f) (s : TestDirective) (v : Value) :
    decodeField s (k, v) = fill_entry s f v := by
  unfold decodeField
  rw [hk]

theorem parse_timeout_key : parseDirectiveField "timeout" = .ok .Timeout := rfl

theorem parse_mounts_key : parseDirectiveField "mounts" = .ok .Mounts := rfl

theorem parse_added_mounts_key : parseDirectiveField "added_mounts" = .ok .AddedMounts := rfl

theorem parse_image_key : parseDirectiveField "image" = .ok .Image := rfl

theorem parse_wd_key : parseDirectiveField "working_directory" = .ok .WorkingDirectory := rfl

theorem parse_layers_key : parseDirectiveField "layers" = .ok .Layers := rfl

theorem parse_added_layers_key : parseDirectiveField "added_layers" = .ok .AddedLayers := rfl

theorem parse_environment_key : parseDirectiveField "environment" = .ok .Environment := rfl

theorem parse_added_environment_key :
    parseDirectiveField "added_environment" = .ok .AddedEnvironment := rfl

theorem parse_dual_key (f : ImageUse) :
    parseDirectiveField (dualKey f) = .ok (dualField f) := by
  cases f <;> rfl

theorem usedExplicitC_image_update {c : TestContainer} {x : String} {f : ImageUse}
    (h : usedExplicitC c f) : usedExplicitC { c with image := some x } f := by
  cases f <;> exact h

theorem usedIsImageC_image_update {c : TestContainer} {x : String} {f : ImageUse}
    (h : usedIsImageC c f) : usedIsImageC { c with image := some x } f := by
  cases f <;> exact h

/-! Establishment: what a successful step guarantees about the new state. -/

theorem df_dual_explicit {s : TestDirective} {f : ImageUse} {v : Value}
    {s' : TestDirective} (h : decodeField s (dualKey f, v) = .ok s') :
    usedExplicitC s'.container f := by
  rw [decodeField_eq_fill (parse_dual_key f)] at h
  cases f
  case Layers =>
    simp only [dualField, fill_entry] at h
    obtain ⟨c, hc, rfl⟩ := exMap_ok.mp h
    obtain ⟨_, _, ls, _, rfl⟩ := cf_Layers_ok hc
    exact ⟨ls, rfl⟩
  case Environment =>
    simp only [dualField, fill_entry] at h
    obtain ⟨c, hc, rfl⟩ := exMap_ok.mp h
    obtain ⟨_, _, m, _, rfl⟩ := cf_Environment_ok hc
    exact ⟨m, rfl⟩
  case WorkingDirectory =>
    simp only [dualField, fill_entry] at h
    obtain ⟨c, hc, rfl⟩ := exMap_ok.mp h
    obtain ⟨_, p, _, rfl⟩ := cf_WD_ok hc
    exact ⟨p, rfl⟩

theorem df_image_establish {s : TestDirective} {v : Value} {s' : TestDirective}
    {x : String} {us : List ImageUse} {f : ImageUse}
    (h : decodeField s ("image", v) = .ok s')
    (hdec : decodeImage v = .ok (x, us)) (hm : useMem f us = true) :
    usedIsImageC s'.container f := by
  rw [decodeField_eq_fill parse_image_key] at h
  simp only [fill_entry] at h
  obtain ⟨c, hc, rfl⟩ := exMap_ok.mp h
  obtain ⟨x', us', hdec', happ⟩ := cf_Image_ok hc
  rw [hdec] at hdec'
  cases hdec'
  rw [applyUses_ok_foldl happ]
  exact foldl_setUse_image_mem hm

theorem df_added_layers_ok {s : TestDirective} {v : Value} {s' : TestDirective}
    (h : decodeField s ("added_layers", v) = .ok s') :
    ∃ ls, decodeLayers v = .ok ls ∧
      s'.container.added_layers = s.container.added_layers ++ ls := by
  rw [decodeField_eq_fill parse_added_layers_key] at h
  simp only [fill_entry] at h
  obtain ⟨c, hc, rfl⟩ := exMap_ok.mp h
  obtain ⟨ls, hls, rfl⟩ := cf_AddedLayers_ok hc
  exact ⟨ls, hls, rfl⟩

theorem df_added_mounts_ok {s : TestDirective} {v : Value} {s' : TestDirective}
    (h : decodeField s ("added_mounts", v) = .ok s') :
    ∃ ms, decodeMounts v = .ok ms ∧
      s'.container.added_mounts = s.container.added_mounts ++ ms := by
  rw [decodeField_eq_fill parse_added_mounts_key] at h
  simp only [fill_entry] at h
  obtain ⟨c, hc, rfl⟩ := exMap_ok.mp h
  obtain ⟨ms, hms, rfl⟩ := cf_AddedMounts_ok hc
  exact ⟨ms, hms, rfl⟩

theorem df_added_env_ok {s : TestDirective} {v : Value} {s' : TestDirective}
    (h : decodeField s ("added_environment", v) = .ok s') :
    ∃ m, decodeEnvironment v = .ok m ∧
      s'.container.added_environment = mergeEnv s.container.added_environment m := by
  rw [decodeField_eq_fill parse_added_environment_key] at h
  simp only [fill_entry] at h
  obtain ⟨c, hc, rfl⟩ := exMap_ok.mp h
  obtain ⟨m, hm, rfl⟩ := cf_AddedEnvironment_ok hc
  exact ⟨m, hm, rfl⟩

/-! Triggers: the step that must fail in a given builder state. -/

theorem df_dual_after_image {s : TestDirective} {f : ImageUse} (v : Value)
    (hp : usedIsImageC s.container f) :
    decodeField s (dualKey f, v) = .error (fieldAfterImageMsg f) := by
  rw [decodeField_eq_fill (parse_dual_key f)]
  cases f
  case Layers =>
    have hp' : s.container.layers = some PossiblyImage.Image := hp
    simp only [dualField, fill_entry, containerFill, if_pos hp']
    rfl
  case Environment =>
    have hp' : s.container.environment = some PossiblyImage.Image := hp
    simp only [dualField, fill_entry, containerFill, if_pos hp']
    rfl
  case WorkingDirectory =>
    have hp' : s.container.working_directory = some PossiblyImage.Image := hp
    simp only [dualField, fill_entry, containerFill, if_pos hp']
    rfl

theorem df_image_uses_err {s : TestDirective} {f : ImageUse} {v : Value}
    {x : String} {us : List ImageUse}
    (hdec : decodeImage v = .ok (x, us)) (hm : useMem f us = true)
    (hp : usedExplicitC s.container f) :
    ∃ e, decodeField s ("image", v) = .error e := by
  rw [decodeField_eq_fill parse_image_key]
  simp only [fill_entry, containerFill, hdec]
  obtain ⟨e, he⟩ :=
    applyUses_err_of_explicit hm (usedExplicitC_image_update (x := x) hp)
  exact ⟨e, by rw [he]; rfl⟩

theorem df_mounts_trigger {s : TestDirective} (v : Value)
    (hp : s.container.added_mounts ≠ []) :
    decodeField s ("mounts", v) = .error (fieldAfterAddedMsg "mounts") := by
  rw [decodeField_eq_fill parse_mounts_key]
  simp only [fill_entry, containerFill, if_neg hp]
  rfl

theorem df_layers_trigger_exact {s : TestDirective} (v : Value)
    (hp : s.container.added_layers ≠ []) (hni : s.container.layers ≠ some .Image) :
    decodeField s ("layers", v) = .error (fieldAfterAddedMsg "layers") := by
  rw [decodeField_eq_fill parse_layers_key]
  simp only [fill_entry, containerFill, if_neg hni, if_neg hp]
  rfl

theorem df_layers_trigger {s : TestDirective} (v : Value)
    (hp : s.container.added_layers ≠ []) :
    ∃ e, decodeField s ("layers", v) = .error e := by
  by_cases hni : s.container.layers = some PossiblyImage.Image
  · refine ⟨fieldAfterImageMsg .Layers, ?_⟩
    rw [decodeField_eq_fill parse_layers_key]
    simp only [fill_entry, containerFill, if_pos hni]
    rfl
  · exact ⟨_, df_layers_trigger_exact v hp hni⟩

theorem df_env_trigger_exact {s : TestDirective} (v : Value)
    (hp : s.container.added_environment ≠ []) (hni : s.container.environment ≠ some .Image) :
    decodeField s ("environment", v) = .error (fieldAfterAddedMsg "environment") := by
  rw [decodeField_eq_fill parse_environment_key]
  simp only [fill_entry, containerFill, if_neg hni, if_neg hp]
  rfl

theorem df_env_trigger {s : TestDirective} (v : Value)
    (hp : s.container.added_environment ≠ []) :
    ∃ e, decodeField s ("environment", v) = .error e := by
  by_cases hni : s.container.environment = some PossiblyImage.Image
  · refine ⟨fieldAfterImageMsg .Environment, ?_⟩
    rw [decodeField_eq_fill parse_environment_key]
    simp only [fill_entry, containerFill, if_pos hni]
    rfl
  · exact ⟨_, df_env_trigger_exact v hp hni⟩

theorem df_image_added_layers_trigger {s : TestDirective} {v : Value}
    {x : String} {us : List ImageUse}
    (hdec : decodeImage v = .ok (x, us)) (hm : useMem .Layers us = true)
    (hp : s.container.added_layers ≠ []) :
    ∃ e, decodeField s ("image", v) = .error e := by
  rw [decodeField_eq_fill parse_image_key]
  simp only [fill_entry, containerFill, hdec]
  obtain ⟨e, he⟩ := applyUses_err_added_layers (c := { s.container with image := some x }) hm hp
  exact ⟨e, by rw [he]; rfl⟩

theorem df_image_added_env_trigger {s : TestDirective} {v : Value}
    {x : String} {us : List ImageUse}
    (hdec : decodeImage v = .ok (x, us)) (hm : useMem .Environment us = true)
    (hp : s.container.added_environment ≠ []) :
    ∃ e, decodeField s ("image", v) = .error e := by
  rw [decodeField_eq_fill parse_image_key]
  simp only [fill_entry, containerFill, hdec]
  obtain ⟨e, he⟩ := applyUses_err_added_env (c := { s.container with image := some x }) hm hp
  exact ⟨e, by rw [he]; rfl⟩

theorem df_unknown {s : TestDirective} {kv : String × Value}
    (hk : kv.1 ∉ directiveFieldNames) :
    decodeField s kv = .error (unknownFieldMsg kv.1) := by
  unfold decodeField
  rw [parse_unknown hk]

/-! Composition: an established builder state plus a later triggering key
forces the whole declaration to fail. -/

theorem decode_err_of (P : TestDirective → Prop) (T : String × Value → Prop)
    (hpres : ∀ s kv s', decodeField s kv = .ok s' → P s → P s')
    (htrig : ∀ s kv, P s → T kv → ∃ e, decodeField s kv = .error e)
    (l₁ : List (String × Value)) (ev : String × Value) (l₂ : List (String × Value))
    (hest : ∀ s s', decodeField s ev = .ok s' → P s')
    (hT : ∃ kv ∈ l₂, T kv) :
    ∃ e, decodeDirective (l₁ ++ ev :: l₂) = .error e := by
  unfold decodeDirective
  rw [runFields_append]
  cases h1 : runFields defaultDirective l₁ with
  | error e => exact ⟨e, rfl⟩
  | ok s0 =>
    show ∃ e, runFields s0 (ev :: l₂) = .error e
    cases h2 : decodeField s0 ev with
    | error e => exact ⟨e, by simp [runFields, h2]⟩
    | ok s1 =>
      obtain ⟨e, he⟩ := runFields_err P T hpres htrig l₂ s1 (hest s0 s1 h2) hT
      exact ⟨e, by simp [runFields, h2, he]⟩

theorem dualKey_ne_image (f : ImageUse) : "image" ≠ dualKey f := by
  cases f <;> decide

theorem noDual_err (f : ImageUse) :
    ∀ (l : List (String × Value)) (s : TestDirective),
      hasImageUsing l f = true → hasKey l (dualKey f) = true →
      ∃ e, runFields s l = .error e := by
  intro l
  induction l with
  | nil => intro s h _; simp [hasImageUsing] at h
  | cons kv rest ih =>
    intro s himg hkey
    obtain ⟨k, v⟩ := kv
    by_cases hiu : imageEntryUses (k, v) f = true
    · obtain ⟨hk1, x, us, hdec, hm⟩ := imageEntryUses_elim hiu
      simp only at hk1
      subst hk1
      have hkey' : hasKey rest (dualKey f) = true := by
        simp only [hasKey] at hkey
        split at hkey
        · next heq => exact absurd heq (dualKey_ne_image f)
        · exact hkey
      cases h1 : decodeField s ("image", v) with
      | error e => exact ⟨e, by simp [runFields, h1]⟩
      | ok s1 =>
        have himage : usedIsImageC s1.container f := df_image_establish h1 hdec hm
        obtain ⟨e, he⟩ := runFields_err (fun s => usedIsImageC s.container f)
          (fun kv' => kv'.1 = dualKey f)
          (fun s kv s' h hp => df_pres_container _ (cfp_image f) s kv s' h hp)
          (fun s kv' hp hT => by
            refine ⟨fieldAfterImageMsg f, ?_⟩
            have h2 := df_dual_after_image (s := s) (f := f) kv'.2 hp
            rw [← hT] at h2
            exact h2)
          rest s1 himage (hasKey_exists hkey')
        exact ⟨e, by simp [runFields, h1, he]⟩
    · have himg' : hasImageUsing rest f = true := by
        simp only [hasImageUsing, Bool.or_eq_true] at himg
        rcases himg with h | h
        · exact absurd h hiu
        · exact h
      by_cases hdk : k = dualKey f
      · subst hdk
        cases h1 : decodeField s (dualKey f, v) with
        | error e => exact ⟨e, by simp [runFields, h1]⟩
        | ok s1 =>
          have hexp : usedExplicitC s1.container f := df_dual_explicit h1
          obtain ⟨e, he⟩ := runFields_err (fun s => usedExplicitC s.container f)
            (fun kv' => imageEntryUses kv' f = true)
            (fun s kv s' h hp => df_pres_container _ (cfp_explicit f) s kv s' h hp)
            (fun s kv' hp hT => by
              obtain ⟨hk1, x, us, hdec, hm⟩ := imageEntryUses_elim hT
              have h2 := df_image_uses_err (s := s) hdec hm hp
              rw [← hk1] at h2
              exact h2)
            rest s1 hexp (hasImageUsing_exists himg')
          exact ⟨e, by simp [runFields, h1, he]⟩
      · have hkey' : hasKey rest (dualKey f) = true := by
          simp only [hasKey] at hkey
          split at hkey
          · next heq => exact absurd heq hdk
          · exact hkey
        cases h1 : decodeField s (k, v) with
        | error e => exact ⟨e, by simp [runFields, h1]⟩
        | ok s1 =>
          obtain ⟨e, he⟩ := ih s1 himg' hkey'
          exact ⟨e, by simp [runFields, h1, he]⟩

theorem applyUse_layers_added_exact {c : TestContainer}
    (hexp : ¬ usedExplicitC c .Layers) (hal : c.added_layers ≠ []) :
    applyUse c .Layers = .error (imageUseAfterAddedMsg .Layers) := by
  simp only [applyUse]
  split
  · next x heq => exact absurd ⟨x, heq⟩ hexp
  · split
    · rfl
    · next heq => exact absurd heq hal

theorem applyUse_env_added_exact {c : TestContainer}
    (hexp : ¬ usedExplicitC c .Environment) (hal : c.added_environment ≠ []) :
    applyUse c .Environment = .error (imageUseAfterAddedMsg .Environment) := by
  simp only [applyUse]
  split
  · next x heq => exact absurd ⟨x, heq⟩ hexp
  · split
    · rfl
    · next heq => exact absurd heq hal

/-- C1: for every field f in {working_directory, layers, environment}, no
accepted declaration both references an image whose use set contains f and
sets f explicitly; whichever of the two appears second fails with an error
naming the dual-sourced field. -/
theorem claim1_no_dual_source :
    ∀ f : ImageUse,
      (∀ kvs, hasImageUsing kvs f = true → hasKey kvs (dualKey f) = true →
        ∃ e, decodeDirective kvs = .error e) ∧
      (∀ (s : TestDirective) (v : Value), usedIsImageC s.container f →
        decodeField s (dualKey f, v) = .error (fieldAfterImageMsg f)) ∧
      (∀ (s : TestDirective) (x : String), usedExplicitC s.container f →
        decodeField s ("image", Value.table
            [("name", Value.str x), ("use", Value.seq [Value.str (dualKey f)])])
          = .error (imageCannotUseMsg f)) ∧
      strHas (fieldAfterImageMsg f) ("`" ++ dualKey f ++ "`") = true ∧
      strHas (imageCannotUseMsg f) ("`" ++ dualKey f ++ "`") = true := by
  intro f
  refine ⟨?_, ?_, ?_, ?_, ?_⟩
  · intro kvs h1 h2
    exact noDual_err f kvs defaultDirective h1 h2
  · intro s v hp
    exact df_dual_after_image v hp
  · intro s x hp
    have hdec : decodeImage (Value.table
        [("name", Value.str x), ("use", Value.seq [Value.str (dualKey f)])])
        = .ok (x, [f]) := by
      cases f <;> rfl
    rw [decodeField_eq_fill parse_image_key]
    simp only [fill_entry, containerFill, hdec]
    have happ : applyUses { s.container with image := some x } [f]
        = .error (imageCannotUseMsg f) := by
      simp only [applyUses, applyUse_err_explicit (usedExplicitC_image_update hp)]
    rw [happ]
    rfl
  · cases f <;> decide
  · cases f <;> decide

theorem claim1_witness :
    hasImageUsing [("layers", tarFooVal), ("image", imgUseLayersVal)] ImageUse.Layers = true ∧
    hasKey [("layers", tarFooVal), ("image", imgUseLayersVal)] (dualKey ImageUse.Layers) = true ∧
    ∃ e, decodeDirective [("layers", tarFooVal), ("image", imgUseLayersVal)] = .error e :=
  ⟨rfl, rfl, (claim1_no_dual_source ImageUse.Layers).1 _ rfl rfl⟩

/-- C2 (amended): a replace-field arriving after its added-sibling has
accumulated a nonempty list fails; the diagnostics name both fields with
backticks around the field names. -/
theorem claim2_replace_before_append :
    (∀ (l₁ l₂ : List (String × Value)) (v : Value) (ms : List JobMountForTomlAndJson),
      decodeMounts v = .ok ms → ms ≠ [] → (∃ kv ∈ l₂, kv.1 = "mounts") →
      ∃ e, decodeDirective (l₁ ++ ("added_mounts", v) :: l₂) = .error e) ∧
    (∀ (s : TestDirective) (v : Value), s.container.added_mounts ≠ [] →
      decodeField s ("mounts", v) = .error (fieldAfterAddedMsg "mounts")) ∧
    (∀ (l₁ l₂ : List (String × Value)) (v : Value) (ls : List LayerSpec),
      decodeLayers v = .ok ls → ls ≠ [] →
      (∃ kv ∈ l₂, kv.1 = "layers" ∨ imageEntryUses kv .Layers = true) →
      ∃ e, decodeDirective (l₁ ++ ("added_layers", v) :: l₂) = .error e) ∧
    (∀ (s : TestDirective) (v : Value), s.container.added_layers ≠ [] →
      s.container.layers ≠ some .Image →
      decodeField s ("layers", v) = .error (fieldAfterAddedMsg "layers")) ∧
    (∀ (s : TestDirective) (x : String) (v : Value),
      decodeImage v = .ok (x, [ImageUse.Layers]) → ¬ usedExplicitC s.container .Layers →
      s.container.added_layers ≠ [] →
      decodeField s ("image", v) = .error (imageUseAfterAddedMsg .Layers)) ∧
    (∀ (l₁ l₂ : List (String × Value)) (v : Value) (m : List (String × String)),
      decodeEnvironment v = .ok m → m ≠ [] →
      (∃ kv ∈ l₂, kv.1 = "environment" ∨ imageEntryUses kv .Environment = true) →
      ∃ e, decodeDirective (l₁ ++ ("added_environment", v) :: l₂) = .error e) ∧
    (∀ (s : TestDirective) (v : Value), s.container.added_environment ≠ [] →
      s.container.environment ≠ some .Image →
      decodeField s ("environment", v) = .error (fieldAfterAddedMsg "environment")) ∧
    (∀ (s : TestDirective) (x : String) (v : Value),
      decodeImage v = .ok (x, [ImageUse.Environment]) →
      ¬ usedExplicitC s.container .Environment →
      s.container.added_environment ≠ [] →
      decodeField s ("image", v) = .error (imageUseAfterAddedMsg .Environment)) := by
  refine ⟨?_, ?_, ?_, ?_, ?_, ?_, ?_, ?_⟩
  · intro l₁ l₂ v ms hms hne hT
    refine decode_err_of (fun s => s.container.added_mounts ≠ [])
      (fun kv => kv.1 = "mounts")
      (fun s kv s' h hp => df_pres_container _ cfp_added_mounts_ne s kv s' h hp)
      (fun s kv' hp hk => ⟨fieldAfterAddedMsg "mounts", by
        obtain ⟨k, w⟩ := kv'
        have hk' : k = "mounts" := hk
        subst hk'
        exact df_mounts_trigger w hp⟩)
      l₁ _ l₂ ?_ hT
    intro s s' h
    obtain ⟨ms', hms', heq⟩ := df_added_mounts_ok h
    rw [hms] at hms'
    cases hms'
    rw [heq]
    intro hcon
    exact hne (List.append_eq_nil.mp hcon).2
  · intro s v hp
    exact df_mounts_trigger v hp
  · intro l₁ l₂ v ls hls hne hT
    refine decode_err_of (fun s => s.container.added_layers ≠ [])
      (fun kv => kv.1 = "layers" ∨ imageEntryUses kv .Layers = true)
      (fun s kv s' h hp => df_pres_container _ cfp_added_layers_ne s kv s' h hp)
      (fun s kv' hp hk => ?_)
      l₁ _ l₂ ?_ hT
    · rcases hk with hk | hk
      · obtain ⟨e, he⟩ := df_layers_trigger (s := s) kv'.2 hp
        rw [← hk] at he
        exact ⟨e, he⟩
      · obtain ⟨hk1, x, us, hdec, hm⟩ := imageEntryUses_elim hk
        obtain ⟨e, he⟩ := df_image_added_layers_trigger (s := s) hdec hm hp
        rw [← hk1] at he
        exact ⟨e, he⟩
    · intro s s' h
      obtain ⟨ls', hls', heq⟩ := df_added_layers_ok h
      rw [hls] at hls'
      cases hls'
      rw [heq]
      intro hcon
      exact hne (List.append_eq_nil.mp hcon).2
  · intro s v hp hni
    exact df_layers_trigger_exact v hp hni
  · intro s x v hdec hexp hal
    rw [decodeField_eq_fill parse_image_key]
    simp only [fill_entry, containerFill, hdec]
    have happ : applyUses { s.container with image := some x } [.Layers]
        = .error (imageUseAfterAddedMsg .Layers) := by
      have hexp' : ¬ usedExplicitC { s.container with image := some x } .Layers := fun hc =>
        hexp hc
      simp only [applyUses, applyUse_layers_added_exact hexp' hal]
    rw [happ]
    rfl
  · intro l₁ l₂ v m hm hne hT
    refine decode_err_of (fun s => s.container.added_environment ≠ [])
      (fun kv => kv.1 = "environment" ∨ imageEntryUses kv .Environment = true)
      (fun s kv s' h hp => df_pres_container _ cfp_added_env_ne s kv s' h hp)
      (fun s kv' hp hk => ?_)
      l₁ _ l₂ ?_ hT
    · rcases hk with hk | hk
      · obtain ⟨e, he⟩ := df_env_trigger (s := s) kv'.2 hp
        rw [← hk] at he
        exact ⟨e, he⟩
      · obtain ⟨hk1, x, us, hdec, hmm⟩ := imageEntryUses_elim hk
        obtain ⟨e, he⟩ := df_image_added_env_trigger (s := s) hdec hmm hp
        rw [← hk1] at he
        exact ⟨e, he⟩
    · intro s s' h
      obtain ⟨m', hm', heq⟩ := df_added_env_ok h
      rw [hm] at hm'
      cases hm'
      rw [heq]
      exact mergeEnv_ne_nil_right _ hne
  · intro s v hp hni
    exact df_env_trigger_exact v hp hni
  · intro s x v hdec hexp hal
    rw [decodeField_eq_fill parse_image_key]
    simp only [fill_entry, containerFill, hdec]
    have happ : applyUses { s.container with image := some x } [.Environment]
        = .error (imageUseAfterAddedMsg .Environment) := by
      have hexp' : ¬ usedExplicitC { s.container with image := some x } .Environment :=
        fun hc => hexp hc
      simp only [applyUses, applyUse_env_added_exact hexp' hal]
    rw [happ]
    rfl

theorem claim2_counterexample :
    decodeDirective [("added_mounts", Value.seq []), ("mounts", Value.seq [])]
      = .ok { defaultDirective with container := { defaultContainer with mounts := some [] } } ∧
    decodeDirective [("added_mounts", tmpMountVal), ("mounts", Value.seq [])]
      = .error (fieldAfterAddedMsg "mounts") ∧
    strHas (fieldAfterAddedMsg "mounts")
      ("field " ++ apos ++ "mounts" ++ apos ++ " cannot be set after " ++ apos
        ++ "added_mounts" ++ apos) = false :=
  ⟨rfl, rfl, by decide⟩

theorem claim2_witness :
    decodeMounts tmpMountVal = .ok [JobMountForTomlAndJson.Tmp "/tmp"] ∧
    (∃ e, decodeDirective
      ([] ++ ("added_mounts", tmpMountVal) :: [("mounts", Value.seq [])]) = .error e) :=
  ⟨rfl, claim2_replace_before_append.1 [] [("mounts", Value.seq [])] tmpMountVal
    [JobMountForTomlAndJson.Tmp "/tmp"] rfl (by simp)
    ⟨("mounts", Value.seq []), List.mem_singleton.mpr rfl, rfl⟩⟩

theorem hasImageUsing_split {l : List (String × Value)} {f : ImageUse}
    (h : hasImageUsing l f = true) :
    ∃ l₁ kv l₂, l = l₁ ++ kv :: l₂ ∧ imageEntryUses kv f = true := by
  obtain ⟨kv, hm, hu⟩ := hasImageUsing_exists h
  obtain ⟨l₁, l₂, rfl⟩ := List.append_of_mem hm
  exact ⟨l₁, kv, l₂, rfl, hu⟩

theorem runFields_ok_split {s : TestDirective} {l₁ : List (String × Value)}
    {kv : String × Value} {l₂ : List (String × Value)} {d : TestDirective}
    (h : runFields s (l₁ ++ kv :: l₂) = .ok d) :
    ∃ s0 s1, runFields s l₁ = .ok s0 ∧ decodeField s0 kv = .ok s1 ∧
      runFields s1 l₂ = .ok d := by
  rw [runFields_append] at h
  cases h1 : runFields s l₁ with
  | error e => rw [h1] at h; cases h
  | ok s0 =>
    rw [h1] at h
    have h' : runFields s0 (kv :: l₂) = .ok d := h
    simp only [runFields] at h'
    cases h2 : decodeField s0 kv with
    | error e => rw [h2] at h'; cases h'
    | ok s1 =>
      rw [h2] at h'
      exact ⟨s0, s1, rfl, h2, h'⟩

/-- C3 (amended): every accepted declaration whose image use-set contains
layers finalizes layers as image-sourced, contains no explicit layers key,
and any added_layers entry before the image entry decoded to the empty list;
an added_layers entry after the image entry is accepted and its elements
kept. -/
theorem claim3_image_layers :
    (∀ kvs d, decodeDirective kvs = .ok d → hasImageUsing kvs .Layers = true →
      d.container.layers = some .Image ∧
      hasKey kvs "layers" = false ∧
      (∀ l₁ v l₂, kvs = l₁ ++ ("added_layers", v) :: l₂ →
        hasImageUsing l₂ .Layers = true → decodeLayers v = .ok [])) ∧
    decodeDirective [("image", imgUseLayersVal), ("added_layers", tarFooVal)]
      = .ok { defaultDirective with container :=
          { defaultContainer with
              image := some "rust", layers := some .Image,
              added_layers := [.Tar "foo.tar"] } } := by
  constructor
  · intro kvs d hok himg
    refine ⟨?_, ?_, ?_⟩
    · obtain ⟨l₁, kv, l₂, rfl, hu⟩ := hasImageUsing_split himg
      obtain ⟨hk1, x, us, hdec, hm⟩ := imageEntryUses_elim hu
      obtain ⟨k, v⟩ := kv
      have hk1' : k = "image" := hk1
      subst hk1'
      obtain ⟨s0, s1, h1, h2, h3⟩ := runFields_ok_split hok
      have hest : usedIsImageC s1.container .Layers := df_image_establish h2 hdec hm
      exact runFields_preserve (fun s => usedIsImageC s.container .Layers)
        (fun s kv s' h hp => df_pres_container _ (cfp_image .Layers) s kv s' h hp)
        l₂ s1 d h3 hest
    · cases hb : hasKey kvs "layers" with
      | false => rfl
      | true =>
        exfalso
        obtain ⟨e, he⟩ := noDual_err .Layers kvs defaultDirective himg hb
        have hok' : runFields defaultDirective kvs = .ok d := hok
        rw [he] at hok'
        cases hok'
    · intro l₁ v l₂ hkvs himg2
      subst hkvs
      obtain ⟨s0, s1, h1, h2, h3⟩ := runFields_ok_split hok
      obtain ⟨ls, hls, heq⟩ := df_added_layers_ok h2
      cases hlsn : ls with
      | nil => rw [hlsn] at hls; exact hls
      | cons a rest =>
        exfalso
        have hne : s1.container.added_layers ≠ [] := by
          rw [heq, hlsn]
          simp
        obtain ⟨e, he⟩ := runFields_err (fun s => s.container.added_layers ≠ [])
          (fun kv' => imageEntryUses kv' .Layers = true)
          (fun s kv s' h hp => df_pres_container _ cfp_added_layers_ne s kv s' h hp)
          (fun s kv' hp hk => by
            obtain ⟨hkk, x, us, hdec, hm⟩ := imageEntryUses_elim hk
            obtain ⟨e, he⟩ := df_image_added_layers_trigger (s := s) hdec hm hp
            rw [← hkk] at he
            exact ⟨e, he⟩)
          l₂ s1 hne (hasImageUsing_exists himg2)
        rw [he] at h3
        cases h3
  · rfl

theorem claim3_counterexample :
    hasImageUsing [("added_layers", Value.seq []), ("image", Value.str "rust")]
      ImageUse.Layers = true ∧
    decodeDirective [("added_layers", Value.seq []), ("image", Value.str "rust")]
      = .ok { defaultDirective with container :=
          { defaultContainer with
              image := some "rust", layers := some .Image,
              environment := some .Image } } :=
  ⟨rfl, rfl⟩

theorem claim3_witness :
    decodeDirective [("image", Value.str "rust")]
      = .ok { defaultDirective with container :=
          { defaultContainer with
              image := some "rust", layers := some .Image,
              environment := some .Image } } ∧
    hasImageUsing [("image", Value.str "rust")] ImageUse.Layers = true ∧
    ({ defaultDirective with container :=
          { defaultContainer with
              image := some "rust", layers := some .Image,
              environment := some .Image } } : TestDirective).container.layers
      = some .Image :=
  ⟨rfl, rfl, (claim3_image_layers.1 [("image", Value.str "rust")] _ rfl rfl).1⟩

/-! Timeout: absence and the zero / positive mapping. -/

theorem runFields_timeout_free :
    ∀ (l : List (String × Value)) (s d : TestDirective), hasKey l "timeout" = false →
      runFields s l = .ok d → d.timeout = s.timeout := by
  intro l
  induction l with
  | nil =>
    intro s d _ h
    cases h
    rfl
  | cons kv rest ih =>
    intro s d hnk h
    have hk : kv.1 ≠ "timeout" ∧ hasKey rest "timeout" = false := by
      simp only [hasKey] at hnk
      split at hnk
      · cases hnk
      · next hne => exact ⟨hne, hnk⟩
    simp only [runFields] at h
    cases h1 : decodeField s kv with
    | error e => rw [h1] at h; cases h
    | ok s1 =>
      rw [h1] at h
      rw [ih s1 d hk.2 h, df_pres_timeout hk.1 h1]

/-- C4: a timeout key with value 0 decodes to set-but-none, a positive value
n to set-n-seconds, and a declaration with no timeout key leaves the field
unset. -/
theorem claim4_timeout :
    (∀ kvs d, decodeDirective kvs = .ok d → hasKey kvs "timeout" = false →
      d.timeout = none) ∧
    (∀ (l₁ l₂ : List (String × Value)) (n : Nat) (d : TestDirective),
      hasKey l₂ "timeout" = false →
      decodeDirective (l₁ ++ ("timeout", Value.int n) :: l₂) = .ok d →
      d.timeout = some (Timeout.new n)) ∧
    Timeout.new 0 = none ∧
    (∀ n : Nat, 0 < n → Timeout.new n = some n) := by
  refine ⟨?_, ?_, rfl, ?_⟩
  · intro kvs d hok hnk
    exact runFields_timeout_free kvs defaultDirective d hnk hok
  · intro l₁ l₂ n d hnk hok
    obtain ⟨s0, s1, h1, h2, h3⟩ := runFields_ok_split hok
    rw [decodeField_eq_fill parse_timeout_key] at h2
    simp only [fill_entry] at h2
    obtain ⟨a, ha, rfl⟩ := exMap_ok.mp h2
    have ha' : a = n := by
      have : (Except.ok n : Except String Nat) = .ok a := ha
      cases this
      rfl
    subst ha'
    exact runFields_timeout_free l₂ _ d hnk h3
  · intro n hn
    unfold Timeout.new
    rw [if_neg (Nat.pos_iff_ne_zero.mp hn)]

theorem claim4_witness :
    decodeDirective [("timeout", Value.int 0)]
      = .ok { defaultDirective with timeout := some none } ∧
    ({ defaultDirective with timeout := some none } : TestDirective).timeout
      = some (Timeout.new 0) ∧
    Timeout.new 3 = some 3 :=
  ⟨rfl, claim4_timeout.2.1 [] [] 0 _ rfl rfl, claim4_timeout.2.2.2 3 (by decide)⟩

/-! Image bare-string equivalence. -/

theorem decodeField_image_congr {v₁ v₂ : Value} (h : decodeImage v₁ = decodeImage v₂)
    (s : TestDirective) : decodeField s ("image", v₁) = decodeField s ("image", v₂) := by
  rw [decodeField_eq_fill parse_image_key, decodeField_eq_fill parse_image_key]
  simp only [fill_entry, containerFill, h]

theorem decode_entry_congr {e₁ e₂ : String × Value}
    (h : ∀ s, decodeField s e₁ = decodeField s e₂) (l₁ l₂ : List (String × Value)) :
    decodeDirective (l₁ ++ e₁ :: l₂) = decodeDirective (l₁ ++ e₂ :: l₂) := by
  unfold decodeDirective
  rw [runFields_append, runFields_append]
  cases h1 : runFields defaultDirective l₁ with
  | error e => rfl
  | ok s0 =>
    show runFields s0 (e₁ :: l₂) = runFields s0 (e₂ :: l₂)
    simp only [runFields, h s0]

/-- C5: in any declaration context, a bare-string image reference decodes
exactly like the structured reference with use = [layers, environment], and
alone it yields the image name with layers and environment image-sourced. -/
theorem claim5_image_string_equiv :
    ∀ (x : String) (l₁ l₂ : List (String × Value)),
      decodeDirective (l₁ ++ ("image", Value.str x) :: l₂)
        = decodeDirective (l₁ ++ ("image", Value.table
            [("name", Value.str x),
             ("use", Value.seq [Value.str "layers", Value.str "environment"])]) :: l₂) ∧
      decodeDirective [("image", Value.str x)]
        = .ok { defaultDirective with container :=
            { defaultContainer with
                image := some x, layers := some .Image, environment := some .Image } } := by
  intro x l₁ l₂
  constructor
  · apply decode_entry_congr
    intro s
    apply decodeField_image_congr
    rfl
  · rfl

/-! No mount may sit at the root mount point. -/

theorem decodeNonRootPath_ok {v : Value} {p : String}
    (h : decodeNonRootPath v = .ok p) : p ≠ "/" := by
  cases v with
  | str s =>
    simp only [decodeNonRootPath] at h
    split_ifs at h with hs
    cases h
    exact hs
  | int n => cases h
  | bool b => cases h
  | seq vs => cases h
  | table es => cases h

theorem decodeSimpleMount_ok {entries : List (String × Value)}
    {mk : String → JobMountForTomlAndJson} {m : JobMountForTomlAndJson}
    (h : decodeSimpleMount entries mk = .ok m) :
    ∃ p, p ≠ "/" ∧ m = mk p := by
  unfold decodeSimpleMount at h
  split at h
  · cases h
  · split at h
    · cases h
    · obtain ⟨p, hp, rfl⟩ := exMap_ok.mp h
      exact ⟨p, decodeNonRootPath_ok hp, rfl⟩

theorem decodeBindMount_ok {entries : List (String × Value)} {m : JobMountForTomlAndJson}
    (h : decodeBindMount entries = .ok m) :
    ∃ p lp ro, p ≠ "/" ∧ m = .Bind p lp ro := by
  unfold decodeBindMount at h
  split at h
  · cases h
  · split at h
    · cases h
    · split at h
      · cases h
      · next mp hmp =>
        split at h
        · cases h
        · split at h
          · cases h
          · split at h
            · cases h
              exact ⟨mp, _, false, decodeNonRootPath_ok hmp, rfl⟩
            · obtain ⟨ro, _, rfl⟩ := exMap_ok.mp h
              exact ⟨mp, _, ro, decodeNonRootPath_ok hmp, rfl⟩

theorem decodeDevicesMount_ok {entries : List (String × Value)} {m : JobMountForTomlAndJson}
    (h : decodeDevicesMount entries = .ok m) : ∃ ds, m = .Devices ds := by
  unfold decodeDevicesMount at h
  split at h
  · cases h
  · split at h
    · cases h
    · split at h
      · cases h
      · split at h
        · cases h
        · cases h
        · cases h
          exact ⟨_, rfl⟩

theorem decodeMount_noroot {v : Value} {m : JobMountForTomlAndJson}
    (h : decodeMount v = .ok m) : mountPointOf m ≠ some "/" := by
  cases v with
  | str s => cases h
  | int n => cases h
  | bool b => cases h
  | seq vs => cases h
  | table entries =>
    simp only [decodeMount] at h
    split at h
    · cases h
    · split at h
      · split_ifs at h with h1 h2 h3 h4 h5
        · obtain ⟨p, hp, rfl⟩ := decodeSimpleMount_ok h
          simpa [mountPointOf] using hp
        · obtain ⟨p, hp, rfl⟩ := decodeSimpleMount_ok h
          simpa [mountPointOf] using hp
        · obtain ⟨p, hp, rfl⟩ := decodeSimpleMount_ok h
          simpa [mountPointOf] using hp
        · obtain ⟨p, lp, ro, hp, rfl⟩ := decodeBindMount_ok h
          simpa [mountPointOf] using hp
        · obtain ⟨ds, rfl⟩ := decodeDevicesMount_ok h
          simp [mountPointOf]
      · cases h

theorem decodeMountList_noroot :
    ∀ {vs : List Value} {ms : List JobMountForTomlAndJson},
      decodeMountList vs = .ok ms → ∀ m ∈ ms, mountPointOf m ≠ some "/" := by
  intro vs
  induction vs with
  | nil =>
    intro ms h m hm
    cases h
    exact absurd hm (List.not_mem_nil m)
  | cons v rest ih =>
    intro ms h m hm
    simp only [decodeMountList] at h
    split at h
    · cases h
    · next m0 hm0 =>
      split at h
      · cases h
      · next ms0 hms0 =>
        cases h
        rcases List.mem_cons.mp hm with rfl | hmem
        · exact decodeMount_noroot hm0
        · exact ih hms0 m hmem

theorem decodeMounts_noroot {v : Value} {ms : List JobMountForTomlAndJson}
    (h : decodeMounts v = .ok ms) : ∀ m ∈ ms, mountPointOf m ≠ some "/" := by
  unfold decodeMounts at h
  split at h
  · cases h
  · exact decodeMountList_noroot h

theorem cfp_noroot :
    ∀ (c : TestContainer) (cf : ContainerField) (v : Value) (c' : TestContainer),
      containerFill c cf v = .ok c' → noRootMounts c → noRootMounts c' := by
  intro c cf v c' h hp
  cases cf
  case Network => obtain ⟨a, _, rfl⟩ := cf_Network_ok h; exact hp
  case EnableWritableFileSystem => obtain ⟨a, _, rfl⟩ := cf_EWFS_ok h; exact hp
  case User => obtain ⟨a, _, rfl⟩ := cf_User_ok h; exact hp
  case Group => obtain ⟨a, _, rfl⟩ := cf_Group_ok h; exact hp
  case Mounts =>
    obtain ⟨_, ms, hms, rfl⟩ := cf_Mounts_ok h
    exact ⟨fun m hm => decodeMounts_noroot hms m hm, hp.2⟩
  case AddedMounts =>
    obtain ⟨ms, hms, rfl⟩ := cf_AddedMounts_ok h
    refine ⟨hp.1, fun m hm => ?_⟩
    rcases List.mem_append.mp hm with hm | hm
    · exact hp.2 m hm
    · exact decodeMounts_noroot hms m hm
  case Image =>
    obtain ⟨x, us, _, happ⟩ := cf_Image_ok h
    rw [applyUses_ok_foldl happ]
    constructor
    · intro m hm
      rw [foldl_setUse_mounts] at hm
      exact hp.1 m hm
    · intro m hm
      rw [foldl_setUse_added_mounts] at hm
      exact hp.2 m hm
  case WorkingDirectory => obtain ⟨_, p, _, rfl⟩ := cf_WD_ok h; exact hp
  case Layers => obtain ⟨_, _, ls, _, rfl⟩ := cf_Layers_ok h; exact hp
  case AddedLayers => obtain ⟨a, _, rfl⟩ := cf_AddedLayers_ok h; exact hp
  case Environment => obtain ⟨_, _, m, _, rfl⟩ := cf_Environment_ok h; exact hp
  case AddedEnvironment => obtain ⟨a, _, rfl⟩ := cf_AddedEnvironment_ok h; exact hp

/-- C6: a proc/tmp/sys/bind mount with mount_point "/" fails to decode with
the non-root-path diagnostic, and no accepted declaration's container holds
a mount whose mount point is "/". -/
theorem claim6_root_mount_point :
    decodeMount (Value.table [("type", Value.str "proc"), ("mount_point", Value.str "/")])
      = .error nonRootPathMsg ∧
    decodeMount (Value.table [("type", Value.str "tmp"), ("mount_point", Value.str "/")])
      = .error nonRootPathMsg ∧
    decodeMount (Value.table [("type", Value.str "sys"), ("mount_point", Value.str "/")])
      = .error nonRootPathMsg ∧
    (∀ lp, decodeMount (Value.table
        [("type", Value.str "bind"), ("mount_point", Value.str "/"),
         ("local_path", Value.str lp)]) = .error nonRootPathMsg) ∧
    nonRootPathMsg = "a path of \"/\" not allowed" ∧
    (∀ kvs d, decodeDirective kvs = .ok d → noRootMounts d.container) := by
  refine ⟨rfl, rfl, rfl, fun lp => rfl, rfl, ?_⟩
  intro kvs d hok
  refine runFields_preserve (fun s => noRootMounts s.container)
    (fun s kv s' h hp => df_pres_container _ cfp_noroot s kv s' h hp)
    kvs defaultDirective d hok
    ⟨fun m hm => absurd hm (List.not_mem_nil m), fun m hm => absurd hm (List.not_mem_nil m)⟩

theorem claim6_witness :
    decodeDirective [("mounts", tmpMountVal)]
      = .ok { defaultDirective with container :=
          { defaultContainer with mounts := some [JobMountForTomlAndJson.Tmp "/tmp"] } } ∧
    noRootMounts ({ defaultDirective with container :=
        { defaultContainer with
            mounts := some [JobMountForTomlAndJson.Tmp "/tmp"] } } : TestDirective).container :=
  ⟨rfl, claim6_root_mount_point.2.2.2.2.2 [("mounts", tmpMountVal)] _ rfl⟩

/-- C7: a top-level key outside the closed field universe fails with an
unknown-field error of the serde form listing every permitted field, and any
declaration containing such a key fails to decode. -/
theorem claim7_unknown_field :
    (∀ k, k ∉ directiveFieldNames → ∀ (s : TestDirective) (v : Value),
      decodeField s (k, v) = .error (unknownFieldMsg k)) ∧
    (∀ k, unknownFieldMsg k
      = "unknown field `" ++ k ++ "`, expected one of " ++ expectedFieldList) ∧
    (∀ n ∈ directiveFieldNames, strHas expectedFieldList ("`" ++ n ++ "`") = true) ∧
    (∀ kvs, (∃ kv ∈ kvs, kv.1 ∉ directiveFieldNames) →
      ∃ e, decodeDirective kvs = .error e) := by
  refine ⟨?_, fun k => rfl, ?_, ?_⟩
  · intro k hk s v
    exact df_unknown hk
  · intro n hn
    fin_cases hn <;> decide
  · intro kvs hex
    exact runFields_err (fun _ => True) (fun kv => kv.1 ∉ directiveFieldNames)
      (fun _ _ _ _ _ => trivial)
      (fun s kv _ hT => ⟨_, df_unknown hT⟩)
      kvs defaultDirective trivial hex

theorem claim7_witness :
    ("bogus" ∉ directiveFieldNames) ∧
    decodeField defaultDirective ("bogus", Value.str "x")
      = .error (unknownFieldMsg "bogus") ∧
    (∃ e, decodeDirective [("bogus", Value.str "x")] = .error e) :=
  ⟨by decide,
   claim7_unknown_field.1 "bogus" (by decide) defaultDirective (Value.str "x"),
   claim7_unknown_field.2.2.2 [("bogus", Value.str "x")]
     ⟨("bogus", Value.str "x"), List.mem_singleton.mpr rfl, by decide⟩⟩

/-- C8: the empty declaration decodes to exactly the default directive: the
four directive-only fields unset and the container at its default, with
empty added-lists and an empty added-environment map. -/
theorem claim8_empty_default :
    decodeDirective [] = .ok defaultDirective ∧
    defaultDirective
      = ⟨none, ⟨none, none, none, none, none, [], none, none, none, [], none, []⟩,
         none, none, none⟩ :=
  ⟨rfl, rfl⟩

/-! Named containers decode like directives. -/

theorem runNamed_eq :
    ∀ (l : List (String × Value)), hasKey l "name" = false →
    ∀ (s : TestDirective) (o : Option String),
      runNamedFields s o l = (runFields s l).map (fun d => (d, o)) := by
  intro l
  induction l with
  | nil => intro _ s o; rfl
  | cons kv rest ih =>
    intro hn s o
    obtain ⟨k, v⟩ := kv
    have hk : ¬ k = "name" ∧ hasKey rest "name" = false := by
      simp only [hasKey] at hn
      split at hn
      · cases hn
      · next hne => exact ⟨hne, hn⟩
    simp only [runNamedFields, runFields]
    rw [if_neg hk.1]
    cases h1 : decodeField s (k, v) with
    | error e => rfl
    | ok s1 => exact ih hk.2 s1 o

theorem runNamedFields_append (l₁ : List (String × Value)) :
    ∀ (s : TestDirective) (o : Option String) (l₂ : List (String × Value)),
      runNamedFields s o (l₁ ++ l₂)
        = match runNamedFields s o l₁ with
          | .error e => .error e
          | .ok (s', o') => runNamedFields s' o' l₂ := by
  induction l₁ with
  | nil => intro s o l₂; rfl
  | cons kv rest ih =>
    intro s o l₂
    obtain ⟨k, v⟩ := kv
    simp only [List.cons_append, runNamedFields]
    split_ifs with hk
    · cases he : expectStr v with
      | error e => rfl
      | ok n => exact ih s (some n) l₂
    · cases h1 : decodeField s (k, v) with
      | error e => rfl
      | ok s1 => exact ih s1 o l₂

/-- C9: appending a `name` string key to a name-free declaration and decoding
it as a named container yields exactly the container the directive decoder
produces, and the same error on the same invalid inputs. -/
theorem claim9_named_container_equiv :
    ∀ (kvs : List (String × Value)) (nm : String), hasKey kvs "name" = false →
      (decodeDirective kvs).map (fun d => d.container)
        = (decodeNamedContainer (kvs ++ [("name", Value.str nm)])).map
            (fun c => c.container) := by
  intro kvs nm hn
  unfold decodeNamedContainer
  rw [runNamedFields_append, runNamed_eq kvs hn defaultDirective none]
  unfold decodeDirective
  cases h1 : runFields defaultDirective kvs with
  | error e => rfl
  | ok d => rfl

theorem claim9_witness :
    hasKey [("mounts", tmpMountVal)] "name" = false ∧
    (decodeDirective [("mounts", tmpMountVal)]).map (fun d => d.container)
      = (decodeNamedContainer ([("mounts", tmpMountVal)] ++ [("name", Value.str "test")])).map
          (fun c => c.container) :=
  ⟨rfl, claim9_named_container_equiv [("mounts", tmpMountVal)] "test" rfl⟩

/-! Order-independence of an explicit dual-source field and an image whose
use set avoids it. -/

theorem default_not_explicit (u : ImageUse) : ¬ usedExplicitC defaultContainer u := by
  cases u <;> rintro ⟨y, hy⟩ <;> cases hy

theorem usedExplicitC_image_update_rev {c : TestContainer} {x : String} {f : ImageUse}
    (h : usedExplicitC { c with image := some x } f) : usedExplicitC c f := by
  cases f <;> exact h

theorem df_image_ok_of {s : TestDirective} {iv : Value} {x : String} {us : List ImageUse}
    (hdec : decodeImage iv = .ok (x, us))
    (hexp : ∀ u, useMem u us = true → ¬ usedExplicitC s.container u)
    (hlay : useMem .Layers us = true → s.container.added_layers = [])
    (henv : useMem .Environment us = true → s.container.added_environment = []) :
    decodeField s ("image", iv)
      = .ok { s with container := us.foldl setUse { s.container with image := some x } } := by
  rw [decodeField_eq_fill parse_image_key]
  simp only [fill_entry, containerFill, hdec]
  rw [applyUses_ok_of (c := { s.container with image := some x })
    (fun u hm hc => hexp u hm (usedExplicitC_image_update_rev hc))
    (fun hm => hlay hm) (fun hm => henv hm)]
  rfl

theorem df_wd_ok_of {s : TestDirective} (p : String)
    (hni : s.container.working_directory ≠ some .Image) :
    decodeField s ("working_directory", Value.str p)
      = .ok { s with container :=
          { s.container with working_directory := some (.Explicit p) } } := by
  rw [decodeField_eq_fill parse_wd_key]
  simp only [fill_entry, containerFill, if_neg hni]
  rfl

theorem df_layers_ok_of {s : TestDirective} {v : Value} {ls : List LayerSpec}
    (hni : s.container.layers ≠ some .Image) (hal : s.container.added_layers = [])
    (hv : decodeLayers v = .ok ls) :
    decodeField s ("layers", v)
      = .ok { s with container := { s.container with layers := some (.Explicit ls) } } := by
  rw [decodeField_eq_fill parse_layers_key]
  simp only [fill_entry, containerFill, if_neg hni, if_pos hal, hv]
  rfl

theorem df_env_ok_of {s : TestDirective} {v : Value} {m : List (String × String)}
    (hni : s.container.environment ≠ some .Image) (hal : s.container.added_environment = [])
    (hv : decodeEnvironment v = .ok m) :
    decodeField s ("environment", v)
      = .ok { s with container := { s.container with environment := some (.Explicit m) } } := by
  rw [decodeField_eq_fill parse_environment_key]
  simp only [fill_entry, containerFill, if_neg hni, if_pos hal, hv]
  rfl

theorem foldl_setUse_comm_wd {us : List ImageUse} :
    ∀ (c : TestContainer) (w : Option (PossiblyImage String)),
      useMem .WorkingDirectory us = false →
      us.foldl setUse { c with working_directory := w }
        = { us.foldl setUse c with working_directory := w } := by
  induction us with
  | nil => intro c w _; rfl
  | cons u rest ih =>
    intro c w hm
    obtain ⟨hne, hm'⟩ := useMem_cons_false hm
    have hcomm : setUse { c with working_directory := w } u
        = { setUse c u with working_directory := w } := by
      cases u
      case Layers => rfl
      case Environment => rfl
      case WorkingDirectory => exact absurd rfl hne
    rw [List.foldl_cons, List.foldl_cons, hcomm]
    exact ih (setUse c u) w hm'

theorem foldl_setUse_comm_layers {us : List ImageUse} :
    ∀ (c : TestContainer) (w : Option (PossiblyImage (List LayerSpec))),
      useMem .Layers us = false →
      us.foldl setUse { c with layers := w }
        = { us.foldl setUse c with layers := w } := by
  induction us with
  | nil => intro c w _; rfl
  | cons u rest ih =>
    intro c w hm
    obtain ⟨hne, hm'⟩ := useMem_cons_false hm
    have hcomm : setUse { c with layers := w } u = { setUse c u with layers := w } := by
      cases u
      case WorkingDirectory => rfl
      case Environment => rfl
      case Layers => exact absurd rfl hne
    rw [List.foldl_cons, List.foldl_cons, hcomm]
    exact ih (setUse c u) w hm'

theorem foldl_setUse_comm_env {us : List ImageUse} :
    ∀ (c : TestContainer) (w : Option (PossiblyImage (List (String × String)))),
      useMem .Environment us = false →
      us.foldl setUse { c with environment := w }
        = { us.foldl setUse c with environment := w } := by
  induction us with
  | nil => intro c w _; rfl
  | cons u rest ih =>
    intro c w hm
    obtain ⟨hne, hm'⟩ := useMem_cons_false hm
    have hcomm : setUse { c with environment := w } u
        = { setUse c u with environment := w } := by
      cases u
      case WorkingDirectory => rfl
      case Layers => rfl
      case Environment => exact absurd rfl hne
    rw [List.foldl_cons, List.foldl_cons, hcomm]
    exact ih (setUse c u) w hm'

theorem decode_two (e1 e2 : String × Value) (s1 s2 : TestDirective)
    (h1 : decodeField defaultDirective e1 = .ok s1)
    (h2 : decodeField s1 e2 = .ok s2) :
    decodeDirective [e1, e2] = .ok s2 := by
  show runFields defaultDirective [e1, e2] = .ok s2
  simp only [runFields, h1, h2]

/-- C10: for each dual-source field, a declaration setting the field
explicitly together with an image reference whose use set omits that field
decodes to the same container in either key order: the field explicit, the
image name stored, and every used field image-sourced. -/
theorem claim10_order_independence :
    (∀ (x : String) (iv : Value) (us : List ImageUse) (p : String),
      decodeImage iv = .ok (x, us) → useMem .WorkingDirectory us = false →
      decodeDirective [("image", iv), ("working_directory", Value.str p)]
        = decodeDirective [("working_directory", Value.str p), ("image", iv)] ∧
      ∃ d, decodeDirective [("image", iv), ("working_directory", Value.str p)] = .ok d ∧
        d.container.image = some x ∧
        d.container.working_directory = some (.Explicit p) ∧
        (∀ u, useMem u us = true → usedIsImageC d.container u)) ∧
    (∀ (x : String) (iv : Value) (us : List ImageUse) (v : Value) (ls : List LayerSpec),
      decodeImage iv = .ok (x, us) → useMem .Layers us = false →
      decodeLayers v = .ok ls →
      decodeDirective [("image", iv), ("layers", v)]
        = decodeDirective [("layers", v), ("image", iv)] ∧
      ∃ d, decodeDirective [("image", iv), ("layers", v)] = .ok d ∧
        d.container.image = some x ∧
        d.container.layers = some (.Explicit ls) ∧
        (∀ u, useMem u us = true → usedIsImageC d.container u)) ∧
    (∀ (x : String) (iv : Value) (us : List ImageUse) (v : Value)
        (m : List (String × String)),
      decodeImage iv = .ok (x, us) → useMem .Environment us = false →
      decodeEnvironment v = .ok m →
      decodeDirective [("image", iv), ("environment", v)]
        = decodeDirective [("environment", v), ("image", iv)] ∧
      ∃ d, decodeDirective [("image", iv), ("environment", v)] = .ok d ∧
        d.container.image = some x ∧
        d.container.environment = some (.Explicit m) ∧
        (∀ u, useMem u us = true → usedIsImageC d.container u)) := by
  refine ⟨?_, ?_, ?_⟩
  · intro x iv us p hdec hm
    have hA1 : decodeField defaultDirective ("image", iv)
        = .ok { defaultDirective with container := us.foldl setUse (imgBase x) } :=
      df_image_ok_of (s := defaultDirective) hdec
        (fun u _ => default_not_explicit u) (fun _ => rfl) (fun _ => rfl)
    have hni0 : ¬ usedIsImageC (imgBase x) .WorkingDirectory := fun hc => by cases hc
    have hniA : (us.foldl setUse (imgBase x)).working_directory ≠ some .Image :=
      foldl_setUse_pres_not_image hm hni0
    have hA2 : decodeField
        { defaultDirective with container := us.foldl setUse (imgBase x) }
        ("working_directory", Value.str p)
        = .ok { defaultDirective with container :=
            { us.foldl setUse (imgBase x) with working_directory := some (.Explicit p) } } :=
      df_wd_ok_of p hniA
    have hA : decodeDirective [("image", iv), ("working_directory", Value.str p)]
        = .ok { defaultDirective with container :=
            { us.foldl setUse (imgBase x) with working_directory := some (.Explicit p) } } :=
      decode_two _ _ _ _ hA1 hA2
    have hB1 : decodeField defaultDirective ("working_directory", Value.str p)
        = .ok { defaultDirective with container :=
            { defaultContainer with working_directory := some (.Explicit p) } } :=
      df_wd_ok_of (s := defaultDirective) p (fun hc => by cases hc)
    have hB2 : decodeField
        { defaultDirective with container :=
            { defaultContainer with working_directory := some (.Explicit p) } }
        ("image", iv)
        = .ok { defaultDirective with container :=
            (us.foldl setUse { imgBase x with working_directory := some (.Explicit p) }) } :=
      df_image_ok_of hdec
        (fun u hmu => by
          cases u
          case WorkingDirectory => rw [hm] at hmu; cases hmu
          case Layers => rintro ⟨y, hy⟩; cases hy
          case Environment => rintro ⟨y, hy⟩; cases hy)
        (fun _ => rfl) (fun _ => rfl)
    have hB : decodeDirective [("working_directory", Value.str p), ("image", iv)]
        = .ok { defaultDirective with container :=
            (us.foldl setUse { imgBase x with working_directory := some (.Explicit p) }) } :=
      decode_two _ _ _ _ hB1 hB2
    constructor
    · rw [hA, hB, foldl_setUse_comm_wd (imgBase x) (some (.Explicit p)) hm]
    · refine ⟨_, hA, ?_, rfl, ?_⟩
      · exact (foldl_setUse_image_field us _).trans rfl
      · intro u hmu
        cases u
        case WorkingDirectory => rw [hm] at hmu; cases hmu
        case Layers => exact foldl_setUse_image_mem hmu
        case Environment => exact foldl_setUse_image_mem hmu
  · intro x iv us v ls hdec hm hv
    have hA1 : decodeField defaultDirective ("image", iv)
        = .ok { defaultDirective with container := us.foldl setUse (imgBase x) } :=
      df_image_ok_of (s := defaultDirective) hdec
        (fun u _ => default_not_explicit u) (fun _ => rfl) (fun _ => rfl)
    have hni0 : ¬ usedIsImageC (imgBase x) .Layers := fun hc => by cases hc
    have hniA : (us.foldl setUse (imgBase x)).layers ≠ some .Image :=
      foldl_setUse_pres_not_image hm hni0
    have halA : (us.foldl setUse (imgBase x)).added_layers = [] :=
      (foldl_setUse_added_layers us _).trans rfl
    have hA2 : decodeField
        { defaultDirective with container := us.foldl setUse (imgBase x) }
        ("layers", v)
        = .ok { defaultDirective with container :=
            { us.foldl setUse (imgBase x) with layers := some (.Explicit ls) } } :=
      df_layers_ok_of hniA halA hv
    have hA : decodeDirective [("image", iv), ("layers", v)]
        = .ok { defaultDirective with container :=
            { us.foldl setUse (imgBase x) with layers := some (.Explicit ls) } } :=
      decode_two _ _ _ _ hA1 hA2
    have hB1 : decodeField defaultDirective ("layers", v)
        = .ok { defaultDirective with container :=
            { defaultContainer with layers := some (.Explicit ls) } } :=
      df_layers_ok_of (s := defaultDirective) (fun hc => by cases hc) rfl hv
    have hB2 : decodeField
        { defaultDirective with container :=
            { defaultContainer with layers := some (.Explicit ls) } }
        ("image", iv)
        = .ok { defaultDirective with container :=
            (us.foldl setUse { imgBase x with layers := some (.Explicit ls) }) } :=
      df_image_ok_of hdec
        (fun u hmu => by
          cases u
          case Layers => rw [hm] at hmu; cases hmu
          case WorkingDirectory => rintro ⟨y, hy⟩; cases hy
          case Environment => rintro ⟨y, hy⟩; cases hy)
        (fun hmu => by rw [hm] at hmu; cases hmu) (fun _ => rfl)
    have hB : decodeDirective [("layers", v), ("image", iv)]
        = .ok { defaultDirective with container :=
            (us.foldl setUse { imgBase x with layers := some (.Explicit ls) }) } :=
      decode_two _ _ _ _ hB1 hB2
    constructor
    · rw [hA, hB, foldl_setUse_comm_layers (imgBase x) (some (.Explicit ls)) hm]
    · refine ⟨_, hA, ?_, rfl, ?_⟩
      · exact (foldl_setUse_image_field us _).trans rfl
      · intro u hmu
        cases u
        case Layers => rw [hm] at hmu; cases hmu
        case WorkingDirectory => exact foldl_setUse_image_mem hmu
        case Environment => exact foldl_setUse_image_mem hmu
  · intro x iv us v m hdec hm hv
    have hA1 : decodeField defaultDirective ("image", iv)
        = .ok { defaultDirective with container := us.foldl setUse (imgBase x) } :=
      df_image_ok_of (s := defaultDirective) hdec
        (fun u _ => default_not_explicit u) (fun _ => rfl) (fun _ => rfl)
    have hni0 : ¬ usedIsImageC (imgBase x) .Environment := fun hc => by cases hc
    have hniA : (us.foldl setUse (imgBase x)).environment ≠ some .Image :=
      foldl_setUse_pres_not_image hm hni0
    have halA : (us.foldl setUse (imgBase x)).added_environment = [] :=
      (foldl_setUse_added_environment us _).trans rfl
    have hA2 : decodeField
        { defaultDirective with container := us.foldl setUse (imgBase x) }
        ("environment", v)
        = .ok { defaultDirective with container :=
            { us.foldl setUse (imgBase x) with environment := some (.Explicit m) } } :=
      df_env_ok_of hniA halA hv
    have hA : decodeDirective [("image", iv), ("environment", v)]
        = .ok { defaultDirective with container :=
            { us.foldl setUse (imgBase x) with environment := some (.Explicit m) } } :=
      decode_two _ _ _ _ hA1 hA2
    have hB1 : decodeField defaultDirective ("environment", v)
        = .ok { defaultDirective with container :=
            { defaultContainer with environment := some (.Explicit m) } } :=
      df_env_ok_of (s := defaultDirective) (fun hc => by cases hc) rfl hv
    have hB2 : decodeField
        { defaultDirective with container :=
            { defaultContainer with environment := some (.Explicit m) } }
        ("image", iv)
        = .ok { defaultDirective with container :=
            (us.foldl setUse { imgBase x with environment := some (.Explicit m) }) } :=
      df_image_ok_of hdec
        (fun u hmu => by
          cases u
          case Environment => rw [hm] at hmu; cases hmu
          case WorkingDirectory => rintro ⟨y, hy⟩; cases hy
          case Layers => rintro ⟨y, hy⟩; cases hy)
        (fun _ => rfl) (fun hmu => by rw [hm] at hmu; cases hmu)
    have hB : decodeDirective [("environment", v), ("image", iv)]
        = .ok { defaultDirective with container :=
            (us.foldl setUse { imgBase x with environment := some (.Explicit m) }) } :=
      decode_two _ _ _ _ hB1 hB2
    constructor
    · rw [hA, hB, foldl_setUse_comm_env (imgBase x) (some (.Explicit m)) hm]
    · refine ⟨_, hA, ?_, rfl, ?_⟩
      · exact (foldl_setUse_image_field us _).trans rfl
      · intro u hmu
        cases u
        case Environment => rw [hm] at hmu; cases hmu
        case WorkingDirectory => exact foldl_setUse_image_mem hmu
        case Layers => exact foldl_setUse_image_mem hmu

theorem claim10_witness :
    decodeImage imgUseLayersVal = .ok ("rust", [ImageUse.Layers]) ∧
    useMem ImageUse.WorkingDirectory [ImageUse.Layers] = false ∧
    decodeDirective [("image", imgUseLayersVal), ("working_directory", Value.str "/foo")]
      = decodeDirective [("working_directory", Value.str "/foo"), ("image", imgUseLayersVal)] :=
  ⟨rfl, rfl,
   (claim10_order_independence.1 "rust" imgUseLayersVal [ImageUse.Layers] "/foo" rfl rfl).1⟩

end Maelstrom
